import Mathlib

/-!
# Sales-Analytics: shallow embedding and verification

A shallow embedding of the ingestion/enrichment pipeline, the in-memory
record store and the cascading-filter engine of the Sales-Analytics server,
together with theorems settling the specification's claims.

Spreadsheet cells are either numbers (modelled as integers, the only kind the
pipeline arithmetic touches) or strings; a row is an association list from
column label to cell.  JavaScript truthiness, `||`-defaulting and `parseInt`
are modelled explicitly; `NaN` is modelled as `Option.none`.
-/

/-- A spreadsheet cell value as seen by the row processor. -/
inductive Cell where
  | num (n : Int)
  | str (s : String)
deriving Repr, DecidableEq

/-- `String(v)` on a cell. -/
def cellToString : Cell → String
  | .num n => toString n
  | .str s => s

/-- Is the cell a string value (needed by the schema's string fields)? -/
def Cell.isStr : Cell → Bool
  | .num _ => false
  | .str _ => true

/-- JavaScript truthiness of a cell: a number is truthy iff nonzero,
a string iff nonempty. -/
def truthyCell : Cell → Bool
  | .num n => n != 0
  | .str s => s != ""

/-- A raw spreadsheet row: association list from column label to cell. -/
abbrev Row : Type := List (String × Cell)

/-- `rowData[col]`: first binding of the label, `undefined` (`none`) if absent. -/
def rowGet (r : Row) (k : String) : Option Cell :=
  (List.find? (fun p => p.1 = k) r).map Prod.snd

/-- `a || d` where `a` may be `undefined`: yields `a` when present and truthy,
else the default. -/
def jsOr (a : Option Cell) (d : Cell) : Cell :=
  match a with
  | some c => if truthyCell c then c else d
  | none => d

/-- `rowData[k1] || rowData[k2] || d`. -/
def pick2 (r : Row) (k1 k2 : String) (d : Cell) : Cell :=
  jsOr (rowGet r k1) (jsOr (rowGet r k2) d)

/-- JavaScript `String.prototype.trim`: strip leading and trailing whitespace
(structural implementation so that terms reduce in the kernel). -/
def jsTrim (s : String) : String :=
  ⟨(((s.data.dropWhile Char.isWhitespace).reverse).dropWhile Char.isWhitespace).reverse⟩

/-- JavaScript `String.prototype.toLowerCase` on the ASCII column labels. -/
def jsToLower (s : String) : String :=
  ⟨s.data.map Char.toLower⟩

/-- Numeric value of a digit character. -/
def digitVal (c : Char) : Nat := c.toNat - 48

/-- Parse a maximal leading run of decimal digits; `none` when there is none
(that is the `NaN` case of `parseInt`). -/
def leadDigits (cs : List Char) : Option Nat :=
  let ds := cs.takeWhile Char.isDigit
  if ds.isEmpty then none
  else some (ds.foldl (fun a c => a * 10 + digitVal c) 0)

/-- JavaScript `parseInt` on a string (radix 10): skip leading whitespace,
optional sign, then a maximal digit run; `NaN` (`none`) when no digit follows. -/
def parseIntStr (s : String) : Option Int :=
  match s.toList.dropWhile Char.isWhitespace with
  | '-' :: rest => (leadDigits rest).map (fun n => -(n : Int))
  | '+' :: rest => (leadDigits rest).map (fun n => (n : Int))
  | cs => (leadDigits cs).map (fun n => (n : Int))

/-- JavaScript `parseInt` on a cell: a number cell is already numeric
(`parseInt(String(n)) = n` for integers), a string cell is parsed. -/
def parseIntJS : Cell → Option Int
  | .num n => some n
  | .str s => parseIntStr s

/-- First column of the probe list that is *present* in the row (`!== undefined`)
wins; its cell is stringified and trimmed.  Empty string when none is present. -/
def probe : List String → Row → String
  | [], _ => ""
  | c :: cs, r =>
    match rowGet r c with
    | some v => jsTrim (cellToString v)
    | none => probe cs r

def possibleMakerColumns : List String :=
  ["Maker", "maker", "MAKER", "Manufacturer", "manufacturer", "MANUFACTURER",
   "Company", "company", "COMPANY"]

def possibleRTOColumns : List String :=
  ["RTO", "rto", "Rto", "RTO_Code", "rto_code", "RTO Code", "rto code"]

def monthCols : List String :=
  ["JAN", "FEB", "MAR", "APR", "MAY", "JUN", "JUL", "AUG", "SEP", "OCT", "NOV", "DEC"]

/-- `parseInt(rowData[m] || rowData[m.toLowerCase()] || '0')` for a month column. -/
def monthVal (r : Row) (m : String) : Option Int :=
  parseIntJS (pick2 r m (jsToLower m) (.str "0"))

/-- Addition with `NaN` absorption. -/
def optAdd : Option Int → Option Int → Option Int
  | some a, some b => some (a + b)
  | _, _ => none

/-- `yearTotal`: the sum of the twelve monthly values (a `NaN` month poisons it). -/
def yearTotalOf (r : Row) : Option Int :=
  monthCols.foldl (fun acc m => optAdd acc (monthVal r m)) (some 0)

/-- `parseInt(rowData['Year'] || rowData['year'] || '0')`. -/
def yearOf (r : Row) : Option Int :=
  parseIntJS (pick2 r "Year" "year" (.str "0"))

def stateCell (r : Row) : Cell := pick2 r "state" "State" (.str "")
def cityCell (r : Row) : Cell := pick2 r "city" "City" (.str "")
def districtCell (r : Row) : Cell := pick2 r "District" "district" (.str "")

/-- `parseInt(rowData['total'] || rowData['Total'] || '0') || yearTotal`:
the parsed explicit total wins only when it parses to a nonzero number
(`NaN` and `0` are falsy). -/
def totalOf (r : Row) : Option Int :=
  match parseIntJS (pick2 r "total" "Total" (.str "0")) with
  | some n => if n = 0 then yearTotalOf r else some n
  | none => yearTotalOf r

/-- The insertable record produced by the normalizer / consumed by the store.
Fields the store defaults when absent are `Option`-valued. -/
structure InsertSalesData where
  state : String
  city : String
  maker : Option String
  rto : Option String
  district : Option String
  latitude : Int
  longitude : Int
  sales2022 : Option Int
  sales2023 : Option Int
  sales2024 : Option Int
  sales2025 : Option Int
  total : Option Int
  monthVals : List Int
deriving Repr, DecidableEq

/-- Modelled from the spec: `insertSalesDataSchema` lives in the shared schema
module, which is not part of the given sources.  Per the spec the schema
validates field presence and type; the string fields (`state`, `city`,
`district`) must be strings, and the numeric sales fields must be actual
numbers — which fails exactly when the monthly sum is `NaN`. -/
def schemaOk (r : Row) : Bool :=
  (stateCell r).isStr && (cityCell r).isStr && (districtCell r).isStr
    && (yearTotalOf r).isSome

/-- The allowed ingestion years. -/
def allowedYears : List Int := [2022, 2023, 2024, 2025]

/-- One row of the normalizer: `none` means the row is silently skipped. -/
def processRow (r : Row) : Option InsertSalesData :=
  let maker := probe possibleMakerColumns r
  let rto := probe possibleRTOColumns r
  if maker = "" ∨ rto = "" ∨ ¬truthyCell (stateCell r) ∨ ¬truthyCell (cityCell r) then
    none
  else if ¬(∃ y ∈ allowedYears, yearOf r = some y) then
    none
  else if ¬schemaOk r then
    none
  else
    let yt := (yearTotalOf r).getD 0
    some
      { state := cellToString (stateCell r)
        city := cellToString (cityCell r)
        maker := some maker
        rto := some rto
        district := some (cellToString (districtCell r))
        latitude := 0
        longitude := 0
        sales2022 := some (if yearOf r = some 2022 then yt else 0)
        sales2023 := some (if yearOf r = some 2023 then yt else 0)
        sales2024 := some (if yearOf r = some 2024 then yt else 0)
        sales2025 := some (if yearOf r = some 2025 then yt else 0)
        total := some ((totalOf r).getD 0)
        monthVals := monthCols.map (fun m => (monthVal r m).getD 0) }

/-- A stored sales record (the store assigns `id` and fills defaults). -/
structure SalesData where
  id : Nat
  state : String
  city : String
  maker : String
  rto : String
  district : String
  latitude : Int
  longitude : Int
  sales2022 : Int
  sales2023 : Int
  sales2024 : Int
  sales2025 : Int
  total : Int
  monthVals : List Int
deriving Repr, DecidableEq

/-- The in-memory store: records in insertion order (a JS `Map` keyed by id,
whose keys are unique in every reachable state), plus the id counter. -/
structure Store where
  salesDataMap : List SalesData
  currentId : Nat
deriving Repr, DecidableEq

/-- `Map.set(id, d)`: replace in place when the key exists, else append. -/
def mapSet (l : List SalesData) (d : SalesData) : List SalesData :=
  if l.any (fun x => x.id = d.id) then
    l.map (fun x => if x.id = d.id then d else x)
  else l ++ [d]

/-- The record object built at insertion: spread of the insert data plus the
fresh id, with `|| ''` / `|| 0` defaults for the optional fields. -/
def buildSalesData (id : Nat) (ins : InsertSalesData) : SalesData :=
  { id
    state := ins.state
    city := ins.city
    maker := ins.maker.getD ""
    rto := ins.rto.getD ""
    district := ins.district.getD ""
    latitude := ins.latitude
    longitude := ins.longitude
    sales2022 := ins.sales2022.getD 0
    sales2023 := ins.sales2023.getD 0
    sales2024 := ins.sales2024.getD 0
    sales2025 := ins.sales2025.getD 0
    total := ins.total.getD 0
    monthVals := ins.monthVals }

/-- `MemStorage.createSalesData`. -/
def createSalesData (st : Store) (ins : InsertSalesData) : Store × SalesData :=
  let d := buildSalesData st.currentId ins
  ({ salesDataMap := mapSet st.salesDataMap d, currentId := st.currentId + 1 }, d)

/-- `MemStorage.getAllSalesData` (the map's values in insertion order). -/
def getAllSalesData (st : Store) : List SalesData :=
  st.salesDataMap

/-- `MemStorage.clearSalesData`. -/
def clearSalesData (_st : Store) : Store :=
  { salesDataMap := [], currentId := 1 }

/-- `MemStorage.updateSalesDataCoordinates`. -/
def updateSalesDataCoordinates (st : Store) (id : Nat) (lat lon : Int) : Store :=
  match st.salesDataMap.find? (fun d => d.id = id) with
  | some d =>
    { st with salesDataMap := mapSet st.salesDataMap { d with latitude := lat, longitude := lon } }
  | none => st

/-- Chunk a list into consecutive pieces of length `b` (fuel-driven so that it
computes by structural recursion; the fuel is the list length). -/
def chunksAux (b : Nat) : Nat → List α → List (List α)
  | _, [] => []
  | 0, l => [l]
  | fuel + 1, l => l.take b :: chunksAux b fuel (l.drop b)

/-- `for (let i = 0; i < l.length; i += b) { l.slice(i, i + b) }`. -/
def chunks (b : Nat) (l : List α) : List (List α) :=
  chunksAux b l.length l

/-- The body of one batch of `createMultipleSalesData`: `batch.map` with the
id-assigning record construction, threading the store. -/
def insertChunk (st : Store) : List InsertSalesData → Store × List SalesData
  | [] => (st, [])
  | x :: xs =>
    let d := buildSalesData st.currentId x
    let st1 : Store := { salesDataMap := mapSet st.salesDataMap d, currentId := st.currentId + 1 }
    let (st2, ds) := insertChunk st1 xs
    (st2, d :: ds)

/-- `const batchSize = Math.min(1000, Math.max(100, Math.floor(n / 10)))`. -/
def batchSizeOf (n : Nat) : Nat := min 1000 (max 100 (n / 10))

/-- `MemStorage.createMultipleSalesData`: batched insertion. -/
def createMultipleSalesData (st : Store) (arr : List InsertSalesData) :
    Store × List SalesData :=
  (chunks (batchSizeOf arr.length) arr).foldl
    (fun acc batch =>
      let (st1, ds) := insertChunk acc.1 batch
      (st1, acc.2 ++ ds))
    (st, [])

/-- Repeated `createSalesData`, one input at a time, in order: the reference
behaviour batch insertion must refine. -/
def insertAll (st : Store) : List InsertSalesData → Store × List SalesData
  | [] => (st, [])
  | x :: xs =>
    let (st1, d) := createSalesData st x
    let (st2, ds) := insertAll st1 xs
    (st2, d :: ds)

/-- The state of one ingestion job as tracked in the upload-status map. -/
inductive JobState where
  | processing
  | completed
  | error
deriving Repr, DecidableEq

/-- One entry of the upload-status map. -/
structure UploadStatus where
  status : JobState
  totalRows : Nat
  processedRows : Nat
  insertedRecords : Nat
  errMsg : Option String
deriving Repr, DecidableEq

/-- `const chunkSize = Math.min(2000, Math.max(500, Math.floor(totalRows / 20)))`. -/
def chunkSizeOf (totalRows : Nat) : Nat := min 2000 (max 500 (totalRows / 20))

/-- The `processedRows` values written by the chunk loop, in order: after the
chunk starting at `i = j * chunkSize` the loop writes `min(i + chunkSize, totalRows)`. -/
def processedWrites (rows : List Row) : List Nat :=
  (List.range (chunks (chunkSizeOf rows.length) rows).length).map
    (fun j => min ((j + 1) * chunkSizeOf rows.length) rows.length)

/-- The last `processedRows` value written by the loop (0 when no chunk ran). -/
def lastProcessed (rows : List Row) : Nat :=
  ((0 :: processedWrites rows).getLast?).getD 0

/-- The error message of the empty-result path. -/
def noValidDataMsg : String :=
  "No valid data found in the Excel file. Please check the format and required columns."

/-- `processExcelInBackground` after parsing, up to (not including) the
fire-and-forget geocoding kickoff: normalize all rows chunk by chunk; if no
valid record results, set the error status and leave the store untouched;
otherwise clear the store, batch-insert, and set the completed status. -/
def processExcel (rows : List Row) (st : Store) : Store × UploadStatus :=
  let totalRows := rows.length
  let cs := chunkSizeOf totalRows
  let salesDataArray :=
    (chunks cs rows).foldl (fun acc chunk => acc ++ chunk.filterMap processRow) []
  if salesDataArray.isEmpty then
    (st,
      { status := .error
        totalRows
        processedRows := lastProcessed rows
        insertedRecords := 0
        errMsg := some noValidDataMsg })
  else
    let st1 := clearSalesData st
    let (st2, inserted) := createMultipleSalesData st1 salesDataArray
    (st2,
      { status := .completed
        totalRows
        processedRows := totalRows
        insertedRecords := inserted.length
        errMsg := none })

/-- The successive `processedRows` values observable by status polls of one
job: 0 at creation, one write per processed chunk, and the final write of the
completed path (the error path leaves the last value in place). -/
def pollTrace (rows : List Row) : List Nat :=
  0 :: processedWrites rows ++
    (if ((chunks (chunkSizeOf rows.length) rows).foldl
          (fun acc chunk => acc ++ chunk.filterMap processRow) []).isEmpty
     then [] else [rows.length])

/-- A resolved coordinate pair. -/
abbrev Coord : Type := Int × Int

/-- The geocoding cache: a JS `Map` keyed by `"city, state"`. -/
abbrev GeoCache : Type := List (String × Coord)

def cacheGet (c : GeoCache) (k : String) : Option Coord :=
  (List.find? (fun p => p.1 = k) c).map Prod.snd

def cacheSet (c : GeoCache) (k : String) (v : Coord) : GeoCache :=
  if c.any (fun p => p.1 = k) then
    c.map (fun p => if p.1 = k then (k, v) else p)
  else c ++ [(k, v)]

/-- The cache key of a record: `` `${item.city}, ${item.state}` ``. -/
def geoKey (d : SalesData) : String := d.city ++ ", " ++ d.state

/-- State threaded through one enrichment run: the store, the geocoding cache
and the log of keys for which an external lookup was issued. -/
structure GeoState where
  store : Store
  cache : GeoCache
  lookups : List String
deriving Repr, DecidableEq

/-- One scan item of a batch.  In the single-threaded cooperative model every
item of a `Promise.all` batch runs its synchronous prefix — including the cache
check — before any fetch of the batch resolves, so the cache check reads the
cache as it stood when the batch started (`cache0`); cache writes and record
updates then land in arrival order.  `g` is the external geocoder, a function
(deterministic): `none` models a failed or empty lookup. -/
def processItem (g : String → Option Coord) (cache0 : GeoCache) (gs : GeoState)
    (item : SalesData) : GeoState :=
  let k := geoKey item
  match cacheGet cache0 k with
  | some c =>
    { gs with store := updateSalesDataCoordinates gs.store item.id c.1 c.2 }
  | none =>
    match g k with
    | some c =>
      { store := updateSalesDataCoordinates gs.store item.id c.1 c.2
        cache := cacheSet gs.cache k c
        lookups := gs.lookups ++ [k] }
    | none => { gs with lookups := gs.lookups ++ [k] }

/-- One batch of up to ten concurrent lookups. -/
def processGeoBatch (g : String → Option Coord) (cache0 : GeoCache)
    (gs : GeoState) (batch : List SalesData) : GeoState :=
  batch.foldl (processItem g cache0) gs

/-- The sentinel scan of `updateCoordinatesInBackground`. -/
def needsGeocode (d : SalesData) : Bool :=
  d.latitude = 0 && d.longitude = 0 && truthyCell (.str d.state) && truthyCell (.str d.city)

/-- `updateCoordinatesInBackground` (with an API key configured): scan the
store for sentinel records with nonempty city/state, then process them in
batches of ten, each batch checking the cache as of its start. -/
def enrichAll (g : String → Option Coord) (st : Store) (cache : GeoCache) : GeoState :=
  let itemsNeedingGeocode := (getAllSalesData st).filter needsGeocode
  (chunks 10 itemsNeedingGeocode).foldl
    (fun gs batch => processGeoBatch g gs.cache gs batch)
    { store := st, cache := cache, lookups := [] }

/-- The filter selections of one cascading-filter request. -/
structure FilterSel where
  makers : List String
  rtos : List String
  states : List String
  districts : List String
deriving Repr, DecidableEq

/-- The response of `/api/cascading-filters`. -/
structure FilterResult where
  filteredData : List SalesData
  makers : List String
  rtos : List String
  states : List String
  districts : List String
deriving Repr, DecidableEq

/-- `sel.length === 0 || sel.includes(v)`. -/
def dimMatch (sel : List String) (v : String) : Bool :=
  sel.isEmpty || sel.contains v

/-- `Set.add` under the constraint `b` (a JS string `Set` in insertion order). -/
def addWhen (b : Bool) (l : List String) (v : String) : List String :=
  if b then (if v ∈ l then l else l ++ [v]) else l

/-- String order used by JavaScript's default `Array.prototype.sort`. -/
abbrev strLe (a b : String) : Prop := a ≤ b

/-- The `/api/cascading-filters` handler body: filter the data by all four
constraints, then one pass over all records accumulating, for each dimension,
the values passing the *other three* constraints; finally deduplicate (the
sets), drop falsy values and sort. -/
def applyFilters (sel : FilterSel) (allData : List SalesData) : FilterResult :=
  let filteredData := allData.filter (fun item =>
    dimMatch sel.makers item.maker && dimMatch sel.rtos item.rto &&
    dimMatch sel.states item.state && dimMatch sel.districts item.district)
  let quad := allData.foldl
    (fun (acc : List String × List String × List String × List String) item =>
      (addWhen (dimMatch sel.rtos item.rto && dimMatch sel.states item.state &&
          dimMatch sel.districts item.district) acc.1 item.maker,
       addWhen (dimMatch sel.makers item.maker && dimMatch sel.states item.state &&
          dimMatch sel.districts item.district) acc.2.1 item.rto,
       addWhen (dimMatch sel.makers item.maker && dimMatch sel.rtos item.rto &&
          dimMatch sel.districts item.district) acc.2.2.1 item.state,
       addWhen (dimMatch sel.makers item.maker && dimMatch sel.rtos item.rto &&
          dimMatch sel.states item.state) acc.2.2.2 item.district))
    ([], [], [], [])
  { filteredData
    makers := List.insertionSort strLe (quad.1.filter (fun s => s ≠ ""))
    rtos := List.insertionSort strLe (quad.2.1.filter (fun s => s ≠ ""))
    states := List.insertionSort strLe (quad.2.2.1.filter (fun s => s ≠ ""))
    districts := List.insertionSort strLe (quad.2.2.2.filter (fun s => s ≠ "")) }

/-- The specification's phrasing of the record filter: for each dimension the
selection is empty or the record's field is a member of it. -/
def specFilterPred (sel : FilterSel) (item : SalesData) : Prop :=
  (sel.makers = [] ∨ item.maker ∈ sel.makers) ∧
  (sel.rtos = [] ∨ item.rto ∈ sel.rtos) ∧
  (sel.states = [] ∨ item.state ∈ sel.states) ∧
  (sel.districts = [] ∨ item.district ∈ sel.districts)

instance (sel : FilterSel) (item : SalesData) : Decidable (specFilterPred sel item) :=
  inferInstanceAs (Decidable (_ ∧ _ ∧ _ ∧ _))

/-- The specification's phrasing of one dimension's option list: the distinct
non-empty values of `field` over the records satisfying `cond` (the other
three dimensions' constraints), deduplicated and sorted lexicographically. -/
def specOptions (cond : SalesData → Bool) (field : SalesData → String)
    (allData : List SalesData) : List String :=
  List.insertionSort strLe
    ((((allData.filter cond).map field).dedup).filter (fun s => s ≠ ""))

/-- The whole filter response as the specification words it. -/
def specApplyFilters (sel : FilterSel) (allData : List SalesData) : FilterResult :=
  { filteredData := allData.filter (fun item => decide (specFilterPred sel item))
    makers := specOptions (fun item =>
        dimMatch sel.rtos item.rto && dimMatch sel.states item.state &&
        dimMatch sel.districts item.district) (fun item => item.maker) allData
    rtos := specOptions (fun item =>
        dimMatch sel.makers item.maker && dimMatch sel.states item.state &&
        dimMatch sel.districts item.district) (fun item => item.rto) allData
    states := specOptions (fun item =>
        dimMatch sel.makers item.maker && dimMatch sel.rtos item.rto &&
        dimMatch sel.districts item.district) (fun item => item.state) allData
    districts := specOptions (fun item =>
        dimMatch sel.makers item.maker && dimMatch sel.rtos item.rto &&
        dimMatch sel.states item.state) (fun item => item.district) allData }

/-! ## Chunking lemmas -/

theorem chunksAux_flatten {α : Type} (b : Nat) (hb : 0 < b) :
    ∀ fuel (l : List α), l.length ≤ fuel → (chunksAux b fuel l).flatten = l := by
  intro fuel
  induction fuel with
  | zero =>
    intro l hl
    have : l = [] := List.eq_nil_of_length_eq_zero (Nat.le_zero.mp hl)
    subst this
    rfl
  | succ fuel ih =>
    intro l hl
    cases l with
    | nil => rfl
    | cons x xs =>
      have hdrop : ((x :: xs).drop b).length ≤ fuel := by
        have h1 : ((x :: xs).drop b).length = (x :: xs).length - b :=
          List.length_drop b (x :: xs)
        simp only [List.length_cons] at h1 hl ⊢
        omega
      calc (chunksAux b (fuel + 1) (x :: xs)).flatten
          = (x :: xs).take b ++ (chunksAux b fuel ((x :: xs).drop b)).flatten := rfl
        _ = (x :: xs).take b ++ (x :: xs).drop b := by rw [ih _ hdrop]
        _ = x :: xs := List.take_append_drop b (x :: xs)

theorem chunks_flatten {α : Type} (b : Nat) (hb : 0 < b) (l : List α) :
    (chunks b l).flatten = l :=
  chunksAux_flatten b hb l.length l (Nat.le_refl _)

theorem chunksAux_length_le {α : Type} (b : Nat) (hb : 0 < b) :
    ∀ fuel (l : List α), l.length ≤ fuel →
      ∀ c ∈ chunksAux b fuel l, c.length ≤ b := by
  intro fuel
  induction fuel with
  | zero =>
    intro l hl c hc
    have : l = [] := List.eq_nil_of_length_eq_zero (Nat.le_zero.mp hl)
    subst this
    simp [chunksAux] at hc
  | succ fuel ih =>
    intro l hl c hc
    cases l with
    | nil => simp [chunksAux] at hc
    | cons x xs =>
      have hdrop : ((x :: xs).drop b).length ≤ fuel := by
        have h1 : ((x :: xs).drop b).length = (x :: xs).length - b :=
          List.length_drop b (x :: xs)
        simp only [List.length_cons] at h1 hl ⊢
        omega
      simp only [chunksAux, List.mem_cons] at hc
      rcases hc with hc | hc
      · subst hc
        have := List.length_take_le b (x :: xs)
        exact this
      · exact ih _ hdrop c hc

theorem chunks_length_le {α : Type} (b : Nat) (hb : 0 < b) (l : List α) :
    ∀ c ∈ chunks b l, c.length ≤ b :=
  chunksAux_length_le b hb l.length l (Nat.le_refl _)

/-! ## Record-store insertion lemmas (claim C5) -/

theorem insertChunk_eq_insertAll (st : Store) (l : List InsertSalesData) :
    insertChunk st l = insertAll st l := by
  induction l generalizing st with
  | nil => rfl
  | cons x xs ih =>
    simp only [insertChunk, insertAll, createSalesData, ih]

theorem insertAll_nil (st : Store) : insertAll st [] = (st, []) := rfl

theorem insertAll_cons (st : Store) (x : InsertSalesData) (xs : List InsertSalesData) :
    insertAll st (x :: xs) =
      ((insertAll (createSalesData st x).1 xs).1,
       (createSalesData st x).2 :: (insertAll (createSalesData st x).1 xs).2) := rfl

theorem insertAll_append (st : Store) (l1 l2 : List InsertSalesData) :
    insertAll st (l1 ++ l2) =
      ((insertAll (insertAll st l1).1 l2).1,
       (insertAll st l1).2 ++ (insertAll (insertAll st l1).1 l2).2) := by
  induction l1 generalizing st with
  | nil => simp [insertAll_nil]
  | cons x xs ih =>
    simp only [List.cons_append, insertAll_cons, ih, List.cons_append]

theorem foldl_insertChunk (L : List (List InsertSalesData)) :
    ∀ (st : Store) (acc : List SalesData),
      L.foldl
        (fun acc batch =>
          let (st1, ds) := insertChunk acc.1 batch
          (st1, acc.2 ++ ds))
        (st, acc)
      = ((insertAll st L.flatten).1, acc ++ (insertAll st L.flatten).2) := by
  induction L with
  | nil => intro st acc; simp [insertAll_nil]
  | cons c L ih =>
    intro st acc
    rw [List.foldl_cons]
    have hstep :
        (match insertChunk (st, acc).1 c with
          | (st1, ds) => (st1, (st, acc).2 ++ ds))
        = ((insertAll st c).1, acc ++ (insertAll st c).2) := by
      rw [insertChunk_eq_insertAll]
    rw [hstep, ih, List.flatten_cons, insertAll_append, List.append_assoc]

theorem createMultipleSalesData_eq (st : Store) (arr : List InsertSalesData) :
    createMultipleSalesData st arr = insertAll st arr := by
  have hb : 0 < batchSizeOf arr.length := by
    simp only [batchSizeOf]
    omega
  have h := foldl_insertChunk (chunks (batchSizeOf arr.length) arr) st []
  rw [chunks_flatten _ hb] at h
  simpa [createMultipleSalesData] using h

theorem insertAll_ids (arr : List InsertSalesData) :
    ∀ st : Store,
      (insertAll st arr).2.map (fun d => d.id) = List.range' st.currentId arr.length ∧
      (insertAll st arr).1.currentId = st.currentId + arr.length := by
  induction arr with
  | nil => intro st; simp [insertAll]
  | cons x xs ih =>
    intro st
    simp only [insertAll, createSalesData, List.length_cons, List.map_cons,
      buildSalesData]
    have h := ih { salesDataMap := mapSet st.salesDataMap (buildSalesData st.currentId x),
                   currentId := st.currentId + 1 }
    simp only [buildSalesData] at h
    refine ⟨?_, ?_⟩
    · rw [List.range'_succ]
      simp only [h.1]
    · rw [h.2]
      omega

theorem mapSet_fresh (l : List SalesData) (d : SalesData)
    (h : ∀ x ∈ l, x.id ≠ d.id) : mapSet l d = l ++ [d] := by
  have hany : l.any (fun x => x.id = d.id) = false := by
    simp only [List.any_eq_false, decide_eq_true_eq]
    exact h
  simp [mapSet, hany]

theorem insertAll_map (arr : List InsertSalesData) :
    ∀ st : Store, (∀ x ∈ st.salesDataMap, x.id < st.currentId) →
      (insertAll st arr).1.salesDataMap = st.salesDataMap ++ (insertAll st arr).2 := by
  induction arr with
  | nil => intro st _; simp [insertAll]
  | cons x xs ih =>
    intro st hlt
    have hfresh : ∀ y ∈ st.salesDataMap, y.id ≠ (buildSalesData st.currentId x).id := by
      intro y hy
      have := hlt y hy
      simp only [buildSalesData]
      omega
    have hset : mapSet st.salesDataMap (buildSalesData st.currentId x)
        = st.salesDataMap ++ [buildSalesData st.currentId x] := mapSet_fresh _ _ hfresh
    have hlt1 : ∀ y ∈ st.salesDataMap ++ [buildSalesData st.currentId x],
        y.id < st.currentId + 1 := by
      intro y hy
      rcases List.mem_append.mp hy with hy | hy
      · exact Nat.lt_succ_of_lt (hlt y hy)
      · simp only [List.mem_singleton] at hy
        subst hy
        simp [buildSalesData]
    have h := ih { salesDataMap := st.salesDataMap ++ [buildSalesData st.currentId x],
                   currentId := st.currentId + 1 } hlt1
    simp only [insertAll, createSalesData, hset, h, List.append_assoc, List.cons_append,
      List.nil_append, List.singleton_append]

/-- C5: batch insertion over a store whose record ids are all below the id
counter (true in every reachable state) is observably identical to repeated
single insertion: the internal chunking changes nothing, the store gains
exactly the new records appended after the old ones, and the new records carry
the distinct sequential ids `currentId, currentId+1, ...` in input order. -/
theorem createMultipleSalesData_spec (st : Store) (arr : List InsertSalesData)
    (h : ∀ x ∈ st.salesDataMap, x.id < st.currentId) :
    createMultipleSalesData st arr = insertAll st arr ∧
    (createMultipleSalesData st arr).1.salesDataMap
      = st.salesDataMap ++ (createMultipleSalesData st arr).2 ∧
    (createMultipleSalesData st arr).2.map (fun d => d.id)
      = List.range' st.currentId arr.length := by
  refine ⟨createMultipleSalesData_eq st arr, ?_, ?_⟩
  · rw [createMultipleSalesData_eq st arr]
    exact insertAll_map arr st h
  · rw [createMultipleSalesData_eq st arr]
    exact (insertAll_ids arr st).1

/-- A sample insertable record for concrete witnesses. -/
def sampleIns : InsertSalesData :=
  { state := "MH", city := "Pune", maker := some "Acme", rto := some "MH01",
    district := some "Pune", latitude := 0, longitude := 0, sales2022 := none,
    sales2023 := some 5, sales2024 := none, sales2025 := none, total := some 5,
    monthVals := [] }

/-- The store as freshly constructed (or just cleared). -/
def sampleStore : Store := { salesDataMap := [], currentId := 1 }

/-- Witness for C5 at a concrete store and batch of three records. -/
theorem createMultipleSalesData_spec_witness :
    (∀ x ∈ sampleStore.salesDataMap, x.id < sampleStore.currentId) ∧
    (createMultipleSalesData sampleStore [sampleIns, sampleIns, sampleIns]
        = insertAll sampleStore [sampleIns, sampleIns, sampleIns] ∧
      (createMultipleSalesData sampleStore [sampleIns, sampleIns, sampleIns]).1.salesDataMap
        = sampleStore.salesDataMap
            ++ (createMultipleSalesData sampleStore [sampleIns, sampleIns, sampleIns]).2 ∧
      (createMultipleSalesData sampleStore [sampleIns, sampleIns, sampleIns]).2.map
          (fun d => d.id)
        = List.range' sampleStore.currentId
            ([sampleIns, sampleIns, sampleIns] : List InsertSalesData).length) :=
  ⟨by decide, createMultipleSalesData_spec sampleStore _ (by decide)⟩

/-! ## Coordinate update (claim C9) -/

/-- Pointwise coordinate rewrite of the records carrying `id` (the frame form
`updateCoordinates` must realize: only the identified record's two coordinate
fields change). -/
def setCoordsIn (l : List SalesData) (id : Nat) (lat lon : Int) : List SalesData :=
  l.map (fun x => if x.id = id then { x with latitude := lat, longitude := lon } else x)

/-- C9: `updateCoordinates` on an id present in the store rewrites exactly the
identified record's latitude/longitude and nothing else — every other record,
the record's remaining fields, the insertion order and the id counter are
untouched; on an unknown id it is a silent no-op leaving the store equal. -/
theorem updateSalesDataCoordinates_spec (st : Store) (id : Nat) (lat lon : Int)
    (hnodup : (st.salesDataMap.map (fun d => d.id)).Nodup) :
    ((st.salesDataMap.find? (fun d => d.id = id)).isSome →
      updateSalesDataCoordinates st id lat lon
        = { st with salesDataMap := setCoordsIn st.salesDataMap id lat lon }) ∧
    (st.salesDataMap.find? (fun d => d.id = id) = none →
      updateSalesDataCoordinates st id lat lon = st) := by
  constructor
  · intro hsome
    obtain ⟨d, hd⟩ := Option.isSome_iff_exists.mp hsome
    have hdmem : d ∈ st.salesDataMap := List.mem_of_find?_eq_some hd
    have hdid : d.id = id := by simpa using List.find?_some hd
    have hany : st.salesDataMap.any
        (fun x => x.id = ({ d with latitude := lat, longitude := lon } : SalesData).id)
          = true := by
      simp only [List.any_eq_true, decide_eq_true_eq]
      exact ⟨d, hdmem, rfl⟩
    simp only [updateSalesDataCoordinates, hd, mapSet, hany, if_true]
    have hmapeq : ∀ x ∈ st.salesDataMap,
        (if x.id = ({ d with latitude := lat, longitude := lon } : SalesData).id
         then ({ d with latitude := lat, longitude := lon } : SalesData) else x)
        = (if x.id = id then { x with latitude := lat, longitude := lon } else x) := by
      intro x hx
      by_cases hxid : x.id = id
      · have hxd : x = d :=
          List.inj_on_of_nodup_map hnodup hx hdmem (by rw [hxid, hdid])
        subst hxd
        simp [hxid]
      · simp [hxid, hdid]
    rw [setCoordsIn, List.map_congr_left hmapeq]
  · intro hnone
    simp only [updateSalesDataCoordinates, hnone]

/-- A concrete two-record store for the coordinate-update witness. -/
def twoRecStore : Store :=
  { salesDataMap :=
      [{ id := 1, state := "MH", city := "Pune", maker := "Acme", rto := "MH01",
         district := "Pune", latitude := 0, longitude := 0, sales2022 := 0,
         sales2023 := 5, sales2024 := 0, sales2025 := 0, total := 5, monthVals := [] },
       { id := 2, state := "KA", city := "Bengaluru", maker := "Zenith", rto := "KA05",
         district := "BLR", latitude := 7, longitude := 8, sales2022 := 1,
         sales2023 := 0, sales2024 := 0, sales2025 := 0, total := 1, monthVals := [] }],
    currentId := 3 }

/-- Witness for C9: updating id 1 of a concrete two-record store rewrites only
that record's coordinates, and updating the unknown id 9 is a no-op. -/
theorem updateSalesDataCoordinates_spec_witness :
    ((twoRecStore.salesDataMap.map (fun d => d.id)).Nodup ∧
      ((twoRecStore.salesDataMap.find? (fun d => d.id = 1)).isSome →
        updateSalesDataCoordinates twoRecStore 1 11 22
          = { twoRecStore with
              salesDataMap := setCoordsIn twoRecStore.salesDataMap 1 11 22 })) ∧
    ((twoRecStore.salesDataMap.find? (fun d => d.id = 9) = none) →
      updateSalesDataCoordinates twoRecStore 9 11 22 = twoRecStore) :=
  ⟨⟨by decide, (updateSalesDataCoordinates_spec twoRecStore 1 11 22 (by decide)).1⟩,
   (updateSalesDataCoordinates_spec twoRecStore 9 11 22 (by decide)).2⟩

/-! ## Ingestion job (claims C6, C8) -/

theorem foldl_append_filterMap (L : List (List Row)) :
    ∀ init : List InsertSalesData,
      L.foldl (fun acc chunk => acc ++ chunk.filterMap processRow) init
        = init ++ L.flatten.filterMap processRow := by
  induction L with
  | nil => intro init; simp
  | cons c L ih =>
    intro init
    simp only [List.foldl_cons, List.flatten_cons, List.filterMap_append, ih,
      List.append_assoc]

theorem chunkSizeOf_pos (n : Nat) : 0 < chunkSizeOf n := by
  simp only [chunkSizeOf]
  omega

/-- The normalizer's chunked accumulation equals a plain `filterMap` over all
rows: the chunking is invisible in the accepted-record list. -/
theorem salesDataArray_eq (rows : List Row) :
    (chunks (chunkSizeOf rows.length) rows).foldl
      (fun acc chunk => acc ++ chunk.filterMap processRow) []
    = rows.filterMap processRow := by
  rw [foldl_append_filterMap, chunks_flatten _ (chunkSizeOf_pos rows.length) rows,
    List.nil_append]

/-- C6: when normalization accepts zero rows, the job ends in the `error`
state carrying the "no valid data found" message, and the store is returned
exactly as it was — neither the clear nor the batch insert happens. -/
theorem processExcel_no_valid (rows : List Row) (st : Store)
    (h : rows.filterMap processRow = []) :
    processExcel rows st
      = (st, { status := .error, totalRows := rows.length,
               processedRows := lastProcessed rows, insertedRecords := 0,
               errMsg := some noValidDataMsg }) := by
  simp only [processExcel, salesDataArray_eq, h, List.isEmpty_nil, if_true]

/-- A row carrying only a maker column: the normalizer rejects it. -/
def onlyMakerRow : Row := [("Maker", Cell.str "Acme")]

/-- Witness for C6: a one-row upload whose single row is invalid yields zero
records, the error status with the descriptive message, and an untouched store. -/
theorem processExcel_no_valid_witness :
    ([onlyMakerRow] : List Row).filterMap processRow = [] ∧
    processExcel [onlyMakerRow] twoRecStore
      = (twoRecStore,
         { status := .error, totalRows := 1,
           processedRows := lastProcessed [onlyMakerRow], insertedRecords := 0,
           errMsg := some noValidDataMsg }) :=
  ⟨by decide, by
    have h := processExcel_no_valid [onlyMakerRow] twoRecStore (by decide)
    simpa using h⟩

theorem processedWrites_le (rows : List Row) :
    ∀ x ∈ processedWrites rows, x ≤ rows.length := by
  intro x hx
  simp only [processedWrites, List.mem_map] at hx
  obtain ⟨j, _, rfl⟩ := hx
  exact Nat.min_le_right _ _

theorem chain'_le_processedWrites (rows : List Row) :
    List.Chain' (fun a b => a ≤ b) (processedWrites rows) := by
  rw [processedWrites, List.chain'_map]
  cases hn : (chunks (chunkSizeOf rows.length) rows).length with
  | zero => simp
  | succ n =>
    rw [List.chain'_range_succ]
    intro m _
    exact min_le_min (Nat.mul_le_mul_right _ (Nat.le_succ _)) (Nat.le_refl _)

/-- C8: the successive `processedRows` values a client can observe for one
job — 0 at creation, one write per chunk, and the completed path's final
write — form a monotonically non-decreasing sequence; the error path adds no
further write and so stays monotone as well. -/
theorem chain'_zero_cons_processedWrites (rows : List Row) :
    List.Chain' (fun a b => a ≤ b) (0 :: processedWrites rows) := by
  rw [List.chain'_cons']
  exact ⟨fun y _ => Nat.zero_le y, chain'_le_processedWrites rows⟩

theorem pollTrace_monotone (rows : List Row) :
    List.Chain' (fun a b => a ≤ b) (pollTrace rows) := by
  rw [pollTrace]
  split
  · simp only [List.append_nil]
    exact chain'_zero_cons_processedWrites rows
  · refine (chain'_zero_cons_processedWrites rows).append (List.chain'_singleton _) ?_
    intro x hx y hy
    simp only [List.head?_cons, Option.mem_def, Option.some.injEq] at hy
    subst hy
    have hxm : x ∈ 0 :: processedWrites rows := by
      rcases List.mem_getLast?_eq_getLast hx with ⟨hne, rfl⟩
      exact List.getLast_mem hne
    rcases List.mem_cons.mp hxm with rfl | hxm2
    · exact Nat.zero_le _
    · exact processedWrites_le rows x hxm2

/-! ## Normalizer claims (C3, C4, C10) -/

/-- The sum of the twelve monthly fields, a missing (or absent) month counting
as 0 — the specification's `yearTotal`. -/
def specMonthSum (r : Row) : Int :=
  (monthCols.map (fun m => (monthVal r m).getD 0)).sum

/-- The parsed explicit total cell, `parseInt(rowData['total'] || rowData['Total'] || '0')`. -/
def explicitTotal (r : Row) : Option Int :=
  parseIntJS (pick2 r "total" "Total" (.str "0"))

theorem foldl_optAdd_absorb (f : String → Option Int) (ms : List String) :
    ms.foldl (fun acc m => optAdd acc (f m)) none = none := by
  induction ms with
  | nil => rfl
  | cons m ms ih => simpa [optAdd] using ih

theorem foldl_optAdd_some (f : String → Option Int) (ms : List String) :
    ∀ a t, ms.foldl (fun acc m => optAdd acc (f m)) (some a) = some t →
      t = a + (ms.map (fun m => (f m).getD 0)).sum := by
  induction ms with
  | nil =>
    intro a t h
    simp only [List.foldl_nil, Option.some.injEq] at h
    simp [h]
  | cons m ms ih =>
    intro a t h
    rcases hm : f m with _ | b
    · rw [List.foldl_cons, hm] at h
      rw [show optAdd (some a) none = none from rfl] at h
      rw [foldl_optAdd_absorb] at h
      exact absurd h (by simp)
    · rw [List.foldl_cons, hm] at h
      rw [show optAdd (some a) (some b) = some (a + b) from rfl] at h
      have := ih (a + b) t h
      simp only [List.map_cons, List.sum_cons, hm, Option.getD_some, this]
      ring

theorem yearTotalOf_eq_specMonthSum (r : Row) (t : Int)
    (h : yearTotalOf r = some t) : t = specMonthSum r := by
  have := foldl_optAdd_some (fun m => monthVal r m) monthCols 0 t h
  simpa [specMonthSum] using this

/-- Inversion of an accepted row: the record is exactly the constructed one,
and the guards all passed. -/
theorem processRow_some_inv (r : Row) (rec : InsertSalesData)
    (h : processRow r = some rec) :
    ¬(probe possibleMakerColumns r = "" ∨ probe possibleRTOColumns r = "" ∨
        ¬truthyCell (stateCell r) ∨ ¬truthyCell (cityCell r)) ∧
    (∃ y ∈ allowedYears, yearOf r = some y) ∧ schemaOk r = true ∧
    rec = { state := cellToString (stateCell r)
            city := cellToString (cityCell r)
            maker := some (probe possibleMakerColumns r)
            rto := some (probe possibleRTOColumns r)
            district := some (cellToString (districtCell r))
            latitude := 0
            longitude := 0
            sales2022 := some (if yearOf r = some 2022 then (yearTotalOf r).getD 0 else 0)
            sales2023 := some (if yearOf r = some 2023 then (yearTotalOf r).getD 0 else 0)
            sales2024 := some (if yearOf r = some 2024 then (yearTotalOf r).getD 0 else 0)
            sales2025 := some (if yearOf r = some 2025 then (yearTotalOf r).getD 0 else 0)
            total := some ((totalOf r).getD 0)
            monthVals := monthCols.map (fun m => (monthVal r m).getD 0) } := by
  simp only [processRow] at h
  by_cases h1 : (probe possibleMakerColumns r = "" ∨ probe possibleRTOColumns r = "" ∨
      ¬truthyCell (stateCell r) ∨ ¬truthyCell (cityCell r))
  · rw [if_pos h1] at h
    exact absurd h (by simp)
  rw [if_neg h1] at h
  by_cases h2 : ∃ y ∈ allowedYears, yearOf r = some y
  · rw [if_neg (not_not_intro h2)] at h
    by_cases h3 : schemaOk r = true
    · rw [if_neg (not_not_intro h3)] at h
      exact ⟨h1, h2, h3, (Option.some_inj.mp h).symm⟩
    · rw [if_pos h3] at h
      exact absurd h (by simp)
  · rw [if_pos h2] at h
    exact absurd h (by simp)

/-- C3 (amended): for every accepted row with year `y`, the sales field for
`y` holds the monthly sum (missing months counting as 0), the other three year
fields are 0, and `total` is the parsed explicit `total`/`Total` cell when it
parses to a nonzero number, otherwise the monthly sum — an explicit cell that
is truthy as a raw value but parses to 0 (such as the string `"0"`) or fails
to parse falls back to the monthly sum. -/
theorem processRow_sales_total (r : Row) (rec : InsertSalesData) (y : Int)
    (hacc : processRow r = some rec) (hy : yearOf r = some y) :
    rec.sales2022 = some (if y = 2022 then specMonthSum r else 0) ∧
    rec.sales2023 = some (if y = 2023 then specMonthSum r else 0) ∧
    rec.sales2024 = some (if y = 2024 then specMonthSum r else 0) ∧
    rec.sales2025 = some (if y = 2025 then specMonthSum r else 0) ∧
    (∀ n, explicitTotal r = some n → n ≠ 0 → rec.total = some n) ∧
    ((explicitTotal r = some 0 ∨ explicitTotal r = none) →
      rec.total = some (specMonthSum r)) := by
  obtain ⟨h1, h2, h3, hrec⟩ := processRow_some_inv r rec hacc
  have hyt : (yearTotalOf r).isSome := by
    simp only [schemaOk, Bool.and_eq_true] at h3
    exact h3.2
  obtain ⟨t, ht⟩ := Option.isSome_iff_exists.mp hyt
  have htspec : (yearTotalOf r).getD 0 = specMonthSum r := by
    rw [ht, Option.getD_some]
    exact yearTotalOf_eq_specMonthSum r t ht
  have hsel : ∀ z : Int,
      (if yearOf r = some z then (yearTotalOf r).getD 0 else 0)
        = (if y = z then specMonthSum r else 0) := by
    intro z
    rw [hy]
    by_cases hyy : y = z
    · simp [hyy, htspec]
    · simp [hyy]
  subst hrec
  refine ⟨?_, ?_, ?_, ?_, ?_, ?_⟩
  · show some (if yearOf r = some 2022 then (yearTotalOf r).getD 0 else 0) = _
    rw [hsel 2022]
  · show some (if yearOf r = some 2023 then (yearTotalOf r).getD 0 else 0) = _
    rw [hsel 2023]
  · show some (if yearOf r = some 2024 then (yearTotalOf r).getD 0 else 0) = _
    rw [hsel 2024]
  · show some (if yearOf r = some 2025 then (yearTotalOf r).getD 0 else 0) = _
    rw [hsel 2025]
  · intro n hn hnz
    have hn' : parseIntJS (pick2 r "total" "Total" (.str "0")) = some n := hn
    have htot : totalOf r = some n := by
      rw [totalOf, hn']
      simp [hnz]
    show some ((totalOf r).getD 0) = some n
    rw [htot, Option.getD_some]
  · intro hcase
    have htot : totalOf r = yearTotalOf r := by
      rcases hcase with hc | hc
      · have hc' : parseIntJS (pick2 r "total" "Total" (.str "0")) = some 0 := hc
        rw [totalOf, hc']
        simp
      · have hc' : parseIntJS (pick2 r "total" "Total" (.str "0")) = none := hc
        rw [totalOf, hc']
    show some ((totalOf r).getD 0) = some (specMonthSum r)
    rw [htot, htspec]

/-- A fully valid row: year 2023, JAN 10, FEB 20, no explicit total. -/
def baseRow : Row := [("Maker", Cell.str "Acme"), ("RTO", Cell.str "MH01"),
  ("state", Cell.str "MH"), ("city", Cell.str "Pune"), ("Year", Cell.num 2023),
  ("JAN", Cell.num 10), ("FEB", Cell.num 20)]

/-- The record the normalizer produces for `baseRow`. -/
def baseRec : InsertSalesData :=
  { state := "MH", city := "Pune", maker := some "Acme", rto := some "MH01",
    district := some "", latitude := 0, longitude := 0, sales2022 := some 0,
    sales2023 := some 30, sales2024 := some 0, sales2025 := some 0,
    total := some 30, monthVals := [10, 20, 0, 0, 0, 0, 0, 0, 0, 0, 0, 0] }

/-- `baseRow` with the explicit total cell holding the string `"0"`. -/
def zeroStringTotalRow : Row := baseRow ++ [("total", Cell.str "0")]

/-- C3 counterexample: the explicit total cell `"0"` is present and truthy
(a nonempty string is truthy in JavaScript), yet the accepted record's total
is the monthly sum 30, not the explicit field's numeric value 0 — the code
re-tests truthiness on the *parsed* value, which is 0 and hence falsy. -/
theorem totalOf_truthy_string_zero :
    rowGet zeroStringTotalRow "total" = some (Cell.str "0") ∧
    truthyCell (Cell.str "0") = true ∧
    (processRow zeroStringTotalRow).map (fun x => x.total) = some (some 30) := by
  decide

/-- Witness for C3 at `baseRow`: year 2023, months summing to 30, no explicit
total; the record carries `sales2023 = 30`, the other year fields 0 and
`total = 30`; with an explicit total of 99 the total becomes 99. -/
theorem processRow_sales_total_witness :
    (processRow baseRow = some baseRec ∧ yearOf baseRow = some 2023) ∧
    (baseRec.sales2022 = some (if (2023 : Int) = 2022 then specMonthSum baseRow else 0) ∧
     baseRec.sales2023 = some (if (2023 : Int) = 2023 then specMonthSum baseRow else 0) ∧
     baseRec.sales2024 = some (if (2023 : Int) = 2024 then specMonthSum baseRow else 0) ∧
     baseRec.sales2025 = some (if (2023 : Int) = 2025 then specMonthSum baseRow else 0) ∧
     (∀ n, explicitTotal baseRow = some n → n ≠ 0 → baseRec.total = some n) ∧
     ((explicitTotal baseRow = some 0 ∨ explicitTotal baseRow = none) →
       baseRec.total = some (specMonthSum baseRow))) ∧
    (processRow (baseRow ++ [("total", Cell.num 99)])).map (fun x => x.total)
      = some (some 99) :=
  ⟨⟨by decide, by decide⟩,
   processRow_sales_total baseRow baseRec 2023 (by decide) (by decide),
   by decide⟩

/-- A row whose city cell is a single space: empty after trimming. -/
def spaceCityRow : Row := [("Maker", Cell.str "Acme"), ("RTO", Cell.str "MH01"),
  ("state", Cell.str "MH"), ("city", Cell.str " "), ("Year", Cell.num 2023),
  ("JAN", Cell.num 5)]

/-- C4 counterexample: a row whose city trims to the empty string is accepted
anyway — the code tests raw JS truthiness on the untrimmed state/city values,
and a whitespace-only string is truthy, so the claimed
"empty after trimming ⇒ skipped" fails for state/city. -/
theorem processRow_space_city_accepted :
    jsTrim (cellToString (cityCell spaceCityRow)) = "" ∧
    processRow spaceCityRow ≠ none := by
  decide

/-- C4 (amended): a row is skipped (silently, producing no record) exactly
when the probed maker or rto trims to empty, or the untrimmed state or city
value is falsy (absent, empty string or the number 0 — whitespace-only
strings pass), or the year is not one of 2022–2025, or the assembled record
fails the (spec-modelled) schema validation; and ids are dense over accepted
rows: after a successful ingestion the stored ids are exactly 1..N for the N
accepted rows, in order, unaffected by interleaved skipped rows. -/
theorem processRow_skip_iff_and_dense (rows : List Row) (st : Store) :
    (∀ r : Row, processRow r = none ↔
      (probe possibleMakerColumns r = "" ∨ probe possibleRTOColumns r = "" ∨
       ¬truthyCell (stateCell r) ∨ ¬truthyCell (cityCell r) ∨
       ¬(∃ y ∈ allowedYears, yearOf r = some y) ∨ ¬schemaOk r)) ∧
    (rows.filterMap processRow ≠ [] →
      (processExcel rows st).1.salesDataMap.map (fun d => d.id)
        = List.range' 1 (rows.filterMap processRow).length) := by
  constructor
  · intro r
    constructor
    · intro hnone
      by_contra hall
      push_neg at hall
      obtain ⟨hm, hr, hs, hc, hy, hsc⟩ := hall
      simp only [processRow] at hnone
      rw [if_neg (by push_neg; exact ⟨hm, hr, hs, hc⟩), if_neg (not_not_intro hy),
        if_neg (not_not_intro hsc)] at hnone
      exact absurd hnone (by simp)
    · intro hrhs
      simp only [processRow]
      by_cases h1 : (probe possibleMakerColumns r = "" ∨ probe possibleRTOColumns r = "" ∨
          ¬truthyCell (stateCell r) ∨ ¬truthyCell (cityCell r))
      · rw [if_pos h1]
      · rw [if_neg h1]
        rcases hrhs with hc | hc | hc | hc | hc | hc
        · exact absurd (Or.inl hc) h1
        · exact absurd (Or.inr (Or.inl hc)) h1
        · exact absurd (Or.inr (Or.inr (Or.inl hc))) h1
        · exact absurd (Or.inr (Or.inr (Or.inr hc))) h1
        · rw [if_pos hc]
        · by_cases h2 : ∃ y ∈ allowedYears, yearOf r = some y
          · rw [if_neg (not_not_intro h2), if_pos hc]
          · rw [if_pos h2]
  · intro hne
    have hfalse : (rows.filterMap processRow).isEmpty = false := by
      cases hh : rows.filterMap processRow with
      | nil => exact absurd hh hne
      | cons a l => rfl
    have heq := createMultipleSalesData_eq (clearSalesData st) (rows.filterMap processRow)
    have hmap := insertAll_map (rows.filterMap processRow) (clearSalesData st)
      (by intro x hx; simp [clearSalesData] at hx)
    have hids := (insertAll_ids (rows.filterMap processRow) (clearSalesData st)).1
    have hmap2 : (createMultipleSalesData (clearSalesData st)
        (rows.filterMap processRow)).1.salesDataMap
        = (createMultipleSalesData (clearSalesData st) (rows.filterMap processRow)).2 := by
      rw [heq, hmap]
      simp [clearSalesData]
    have hids2 : (createMultipleSalesData (clearSalesData st)
        (rows.filterMap processRow)).2.map (fun d => d.id)
        = List.range' 1 (rows.filterMap processRow).length := by
      rw [heq, hids]
      simp [clearSalesData]
    simp only [processExcel, salesDataArray_eq, hfalse, Bool.false_eq_true, if_false]
    simp only [hmap2, hids2]

/-- A one-valid-one-invalid upload for the C4 witness. -/
def mixedRows : List Row := [onlyMakerRow, baseRow]

/-- Witness for C4: ingesting a skipped row followed by a valid row stores
exactly one record with id 1 — the skipped row does not shift later ids. -/
theorem processRow_skip_iff_and_dense_witness :
    (mixedRows.filterMap processRow ≠ []) ∧
    (processExcel mixedRows twoRecStore).1.salesDataMap.map (fun d => d.id)
      = List.range' 1 (mixedRows.filterMap processRow).length :=
  ⟨by decide,
   (processRow_skip_iff_and_dense mixedRows twoRecStore).2 (by decide)⟩

/-- C10: presence beats truthiness in the column probe: when the row's
`Maker` cell is present, the probe stops there even if the value trims to the
empty string, so the row is skipped regardless of what any later synonym
column (`Manufacturer`, `Company`, ...) holds. -/
theorem probe_first_present (r : Row) (v : Cell)
    (hpres : rowGet r "Maker" = some v)
    (hblank : jsTrim (cellToString v) = "") :
    probe possibleMakerColumns r = "" ∧ processRow r = none := by
  have hprobe : probe possibleMakerColumns r = "" := by
    simp only [possibleMakerColumns, probe, hpres, hblank]
  refine ⟨hprobe, ?_⟩
  simp only [processRow, hprobe]
  rw [if_pos (Or.inl trivial)]

/-- A row with a blank `Maker` cell and a nonempty `Manufacturer` cell. -/
def blankMakerRow : Row := [("Maker", Cell.str " "), ("Manufacturer", Cell.str "Honda"),
  ("RTO", Cell.str "MH01"), ("state", Cell.str "MH"), ("city", Cell.str "Pune"),
  ("Year", Cell.num 2023)]

/-- Witness for C10: with `Maker` present but blank and `Manufacturer` equal
to "Honda", the probe yields "" and the row is skipped. -/
theorem probe_first_present_witness :
    (rowGet blankMakerRow "Maker" = some (Cell.str " ") ∧
      jsTrim (cellToString (Cell.str " ")) = "" ∧
      rowGet blankMakerRow "Manufacturer" = some (Cell.str "Honda")) ∧
    (probe possibleMakerColumns blankMakerRow = "" ∧ processRow blankMakerRow = none) :=
  ⟨⟨by decide, by decide, by decide⟩,
   probe_first_present blankMakerRow (Cell.str " ") (by decide) (by decide)⟩

/-! ## Cascading filters (claim C1) -/

theorem foldl_quad {α β1 β2 β3 β4 : Type} (f1 : β1 → α → β1) (f2 : β2 → α → β2)
    (f3 : β3 → α → β3) (f4 : β4 → α → β4) (l : List α) :
    ∀ (b1 : β1) (b2 : β2) (b3 : β3) (b4 : β4),
      l.foldl (fun acc x => (f1 acc.1 x, f2 acc.2.1 x, f3 acc.2.2.1 x, f4 acc.2.2.2 x))
        (b1, b2, b3, b4)
      = (l.foldl f1 b1, l.foldl f2 b2, l.foldl f3 b3, l.foldl f4 b4) := by
  induction l with
  | nil => intro b1 b2 b3 b4; rfl
  | cons x xs ih =>
    intro b1 b2 b3 b4
    simp only [List.foldl_cons]
    exact ih _ _ _ _

theorem mem_addWhen (b : Bool) (l : List String) (v y : String) :
    y ∈ addWhen b l v ↔ y ∈ l ∨ (b = true ∧ y = v) := by
  cases b
  · simp [addWhen]
  · by_cases hv : v ∈ l
    · simp only [addWhen, if_pos hv, if_true]
      constructor
      · exact fun h => Or.inl h
      · rintro (h | ⟨-, rfl⟩)
        · exact h
        · exact hv
    · simp [addWhen, hv, List.mem_append]

theorem nodup_addWhen (b : Bool) (l : List String) (v : String) (h : l.Nodup) :
    (addWhen b l v).Nodup := by
  cases b
  · simpa [addWhen] using h
  · by_cases hv : v ∈ l
    · simpa [addWhen, hv] using h
    · simp only [addWhen, if_neg hv, if_true]
      rw [List.nodup_append]
      refine ⟨h, List.nodup_singleton v, ?_⟩
      intro a ha hav
      rw [List.mem_singleton] at hav
      exact hv (hav ▸ ha)

theorem mem_optFold (cond : SalesData → Bool) (field : SalesData → String)
    (l : List SalesData) :
    ∀ (init : List String) (y : String),
      y ∈ l.foldl (fun acc x => addWhen (cond x) acc (field x)) init ↔
        y ∈ init ∨ ∃ x ∈ l, cond x = true ∧ field x = y := by
  induction l with
  | nil => intro init y; simp
  | cons x xs ih =>
    intro init y
    rw [List.foldl_cons, ih]
    rw [mem_addWhen]
    constructor
    · rintro (⟨hy | ⟨hc, rfl⟩⟩ | ⟨z, hz, hcz, rfl⟩)
      · exact Or.inl hy
      · exact Or.inr ⟨x, List.mem_cons_self x xs, hc, rfl⟩
      · exact Or.inr ⟨z, List.mem_cons_of_mem x hz, hcz, rfl⟩
    · rintro (hy | ⟨z, hz, hcz, rfl⟩)
      · exact Or.inl (Or.inl hy)
      · rcases List.mem_cons.mp hz with rfl | hz2
        · exact Or.inl (Or.inr ⟨hcz, rfl⟩)
        · exact Or.inr ⟨z, hz2, hcz, rfl⟩

theorem nodup_optFold (cond : SalesData → Bool) (field : SalesData → String)
    (l : List SalesData) :
    ∀ init : List String, init.Nodup →
      (l.foldl (fun acc x => addWhen (cond x) acc (field x)) init).Nodup := by
  induction l with
  | nil => intro init h; simpa using h
  | cons x xs ih =>
    intro init h
    rw [List.foldl_cons]
    exact ih _ (nodup_addWhen _ _ _ h)

theorem insertionSort_eq_of_mem_iff (l1 l2 : List String) (h1 : l1.Nodup)
    (h2 : l2.Nodup) (hmem : ∀ a, a ∈ l1 ↔ a ∈ l2) :
    List.insertionSort strLe l1 = List.insertionSort strLe l2 := by
  have hperm : l1.Perm l2 := (List.perm_ext_iff_of_nodup h1 h2).mpr hmem
  exact List.eq_of_perm_of_sorted
    ((List.perm_insertionSort strLe l1).trans
      (hperm.trans (List.perm_insertionSort strLe l2).symm))
    (List.sorted_insertionSort strLe l1)
    (List.sorted_insertionSort strLe l2)

theorem optionsFold_eq_specOptions (cond : SalesData → Bool)
    (field : SalesData → String) (data : List SalesData) :
    List.insertionSort strLe
      ((data.foldl (fun acc x => addWhen (cond x) acc (field x)) []).filter
        (fun s => s ≠ ""))
    = specOptions cond field data := by
  rw [specOptions]
  apply insertionSort_eq_of_mem_iff
  · exact List.Nodup.filter _ (nodup_optFold cond field data [] List.nodup_nil)
  · exact List.Nodup.filter _ (List.nodup_dedup _)
  · intro a
    simp only [List.mem_filter, mem_optFold, List.not_mem_nil, false_or,
      List.mem_dedup, List.mem_map, decide_eq_true_eq]
    tauto

theorem dimMatch_iff (sel : List String) (v : String) :
    dimMatch sel v = true ↔ (sel = [] ∨ v ∈ sel) := by
  simp [dimMatch, List.isEmpty_iff]

/-- The four option sets are accumulated by one pass over the data; each
component is an independent fold. -/
theorem applyFilters_quad (sel : FilterSel) (data : List SalesData) :
    data.foldl
      (fun (acc : List String × List String × List String × List String) item =>
        (addWhen (dimMatch sel.rtos item.rto && dimMatch sel.states item.state &&
            dimMatch sel.districts item.district) acc.1 item.maker,
         addWhen (dimMatch sel.makers item.maker && dimMatch sel.states item.state &&
            dimMatch sel.districts item.district) acc.2.1 item.rto,
         addWhen (dimMatch sel.makers item.maker && dimMatch sel.rtos item.rto &&
            dimMatch sel.districts item.district) acc.2.2.1 item.state,
         addWhen (dimMatch sel.makers item.maker && dimMatch sel.rtos item.rto &&
            dimMatch sel.states item.state) acc.2.2.2 item.district))
      ([], [], [], [])
    = (data.foldl (fun acc item =>
         addWhen (dimMatch sel.rtos item.rto && dimMatch sel.states item.state &&
           dimMatch sel.districts item.district) acc item.maker) [],
       data.foldl (fun acc item =>
         addWhen (dimMatch sel.makers item.maker && dimMatch sel.states item.state &&
           dimMatch sel.districts item.district) acc item.rto) [],
       data.foldl (fun acc item =>
         addWhen (dimMatch sel.makers item.maker && dimMatch sel.rtos item.rto &&
           dimMatch sel.districts item.district) acc item.state) [],
       data.foldl (fun acc item =>
         addWhen (dimMatch sel.makers item.maker && dimMatch sel.rtos item.rto &&
           dimMatch sel.states item.state) acc item.district) []) :=
  foldl_quad
    (fun acc item => addWhen (dimMatch sel.rtos item.rto && dimMatch sel.states item.state &&
      dimMatch sel.districts item.district) acc item.maker)
    (fun acc item => addWhen (dimMatch sel.makers item.maker && dimMatch sel.states item.state &&
      dimMatch sel.districts item.district) acc item.rto)
    (fun acc item => addWhen (dimMatch sel.makers item.maker && dimMatch sel.rtos item.rto &&
      dimMatch sel.districts item.district) acc item.state)
    (fun acc item => addWhen (dimMatch sel.makers item.maker && dimMatch sel.rtos item.rto &&
      dimMatch sel.states item.state) acc item.district)
    data [] [] [] []

/-- C1: for every record store and filter selection, the cascading-filter
response is exactly what the specification words say: `filteredData` holds
the records whose every dimension is unconstrained or selected (AND across
dimensions, membership within one), and each dimension's available options
are the distinct non-empty values of that field over the records passing the
other three dimensions' constraints only, deduplicated and sorted. -/
theorem applyFilters_spec (sel : FilterSel) (st : Store) :
    applyFilters sel (getAllSalesData st) = specApplyFilters sel (getAllSalesData st) := by
  have hgen : ∀ data : List SalesData, applyFilters sel data = specApplyFilters sel data := by
    intro data
    have hfd : data.filter (fun item =>
        dimMatch sel.makers item.maker && dimMatch sel.rtos item.rto &&
        dimMatch sel.states item.state && dimMatch sel.districts item.district)
      = data.filter (fun item => decide (specFilterPred sel item)) := by
      apply List.filter_congr
      intro item _
      rw [Bool.eq_iff_iff]
      simp [specFilterPred, dimMatch_iff, and_assoc]
    simp only [applyFilters, specApplyFilters]
    rw [hfd]
    rw [applyFilters_quad]
    rw [optionsFold_eq_specOptions, optionsFold_eq_specOptions,
      optionsFold_eq_specOptions, optionsFold_eq_specOptions]
  exact hgen (getAllSalesData st)

/-! ## Enrichment: frame lemmas, idempotence (C7) and lookup dedup (C2) -/

theorem mapSet_ids (l : List SalesData) (d : SalesData) (hd : ∃ x ∈ l, x.id = d.id) :
    (mapSet l d).map (fun x => x.id) = l.map (fun x => x.id) := by
  have hany : l.any (fun x => x.id = d.id) = true := by
    rw [List.any_eq_true]
    obtain ⟨x, hx, hxd⟩ := hd
    exact ⟨x, hx, by simp [hxd]⟩
  rw [mapSet, if_pos hany, List.map_map]
  apply List.map_congr_left
  intro x _
  simp only [Function.comp_apply]
  by_cases hx : x.id = d.id
  · rw [if_pos hx]
    exact hx.symm
  · rw [if_neg hx]

theorem update_ids (st : Store) (i : Nat) (lat lon : Int) :
    (updateSalesDataCoordinates st i lat lon).salesDataMap.map (fun d => d.id)
      = st.salesDataMap.map (fun d => d.id) := by
  rcases hf : st.salesDataMap.find? (fun d => d.id = i) with _ | d
  · simp only [updateSalesDataCoordinates, hf]
  · simp only [updateSalesDataCoordinates, hf]
    exact mapSet_ids _ _ ⟨d, List.mem_of_find?_eq_some hf, rfl⟩

theorem mapSet_mem (l : List SalesData) (d : SalesData) :
    ∀ x ∈ mapSet l d, x ∈ l ∨ x = d := by
  intro x hx
  rw [mapSet] at hx
  split at hx
  · rw [List.mem_map] at hx
    obtain ⟨y, hy, hyx⟩ := hx
    by_cases hyd : y.id = d.id
    · rw [if_pos hyd] at hyx
      exact Or.inr hyx.symm
    · rw [if_neg hyd] at hyx
      exact Or.inl (hyx ▸ hy)
  · rcases List.mem_append.mp hx with hx2 | hx2
    · exact Or.inl hx2
    · rw [List.mem_singleton] at hx2
      exact Or.inr hx2

theorem update_mem (st : Store) (i : Nat) (lat lon : Int) :
    ∀ x ∈ (updateSalesDataCoordinates st i lat lon).salesDataMap,
      x ∈ st.salesDataMap ∨
        ∃ d, st.salesDataMap.find? (fun d => d.id = i) = some d ∧
          x = { d with latitude := lat, longitude := lon } := by
  intro x hx
  rcases hf : st.salesDataMap.find? (fun d => d.id = i) with _ | d
  · simp only [updateSalesDataCoordinates, hf] at hx
    exact Or.inl hx
  · simp only [updateSalesDataCoordinates, hf] at hx
    rcases mapSet_mem _ _ x hx with hx2 | hx2
    · exact Or.inl hx2
    · exact Or.inr ⟨d, hf, hx2⟩

theorem update_frame (st : Store) (i : Nat) (lat lon : Int) (r : SalesData)
    (hr : r ∈ st.salesDataMap) (hid : r.id ≠ i) :
    r ∈ (updateSalesDataCoordinates st i lat lon).salesDataMap := by
  rcases hf : st.salesDataMap.find? (fun d => d.id = i) with _ | d
  · simp only [updateSalesDataCoordinates, hf]
    exact hr
  · have hdi : d.id = i := by simpa using List.find?_some hf
    simp only [updateSalesDataCoordinates, hf, mapSet]
    split
    · rw [List.mem_map]
      refine ⟨r, hr, ?_⟩
      rw [if_neg]
      show ¬r.id = d.id
      rw [hdi]
      exact hid
    · exact List.mem_append.mpr (Or.inl hr)

theorem processItem_ids (g : String → Option Coord) (cache0 : GeoCache)
    (gs : GeoState) (item : SalesData) :
    (processItem g cache0 gs item).store.salesDataMap.map (fun d => d.id)
      = gs.store.salesDataMap.map (fun d => d.id) := by
  rw [processItem]
  rcases cacheGet cache0 (geoKey item) with _ | c
  · rcases g (geoKey item) with _ | c
    · rfl
    · exact update_ids gs.store item.id c.1 c.2
  · exact update_ids gs.store item.id c.1 c.2

theorem processItem_frame (g : String → Option Coord) (cache0 : GeoCache)
    (gs : GeoState) (item : SalesData) (r : SalesData)
    (hr : r ∈ gs.store.salesDataMap) (hid : r.id ≠ item.id) :
    r ∈ (processItem g cache0 gs item).store.salesDataMap := by
  rw [processItem]
  rcases cacheGet cache0 (geoKey item) with _ | c
  · rcases g (geoKey item) with _ | c
    · exact hr
    · exact update_frame gs.store item.id c.1 c.2 r hr hid
  · exact update_frame gs.store item.id c.1 c.2 r hr hid

theorem processGeoBatch_frame (g : String → Option Coord) (batch : List SalesData)
    (r : SalesData) :
    ∀ (cache0 : GeoCache) (gs : GeoState), r ∈ gs.store.salesDataMap →
      (∀ item ∈ batch, r.id ≠ item.id) →
      r ∈ (processGeoBatch g cache0 gs batch).store.salesDataMap := by
  induction batch with
  | nil => intro cache0 gs hr _; exact hr
  | cons item rest ih =>
    intro cache0 gs hr hids
    rw [processGeoBatch, List.foldl_cons]
    exact ih cache0 (processItem g cache0 gs item)
      (processItem_frame g cache0 gs item r hr (hids item (List.mem_cons_self _ _)))
      (fun it hit => hids it (List.mem_cons_of_mem _ hit))

theorem processGeoBatch_ids (g : String → Option Coord) (batch : List SalesData) :
    ∀ (cache0 : GeoCache) (gs : GeoState),
      (processGeoBatch g cache0 gs batch).store.salesDataMap.map (fun d => d.id)
        = gs.store.salesDataMap.map (fun d => d.id) := by
  induction batch with
  | nil => intro cache0 gs; rfl
  | cons item rest ih =>
    intro cache0 gs
    rw [processGeoBatch, List.foldl_cons]
    rw [show List.foldl (processItem g cache0) (processItem g cache0 gs item) rest
        = processGeoBatch g cache0 (processItem g cache0 gs item) rest from rfl]
    rw [ih, processItem_ids]

theorem foldl_batches_frame (g : String → Option Coord) (L : List (List SalesData))
    (r : SalesData) :
    ∀ gs : GeoState, r ∈ gs.store.salesDataMap →
      (∀ batch ∈ L, ∀ item ∈ batch, r.id ≠ item.id) →
      r ∈ (L.foldl (fun gs batch => processGeoBatch g gs.cache gs batch)
            gs).store.salesDataMap := by
  induction L with
  | nil => intro gs hr _; exact hr
  | cons batch L ih =>
    intro gs hr hids
    rw [List.foldl_cons]
    exact ih _ (processGeoBatch_frame g batch r gs.cache gs hr
        (fun it hit => hids batch (List.mem_cons_self _ _) it hit))
      (fun b hb it hit => hids b (List.mem_cons_of_mem _ hb) it hit)

theorem foldl_batches_ids (g : String → Option Coord) (L : List (List SalesData)) :
    ∀ gs : GeoState,
      ((L.foldl (fun gs batch => processGeoBatch g gs.cache gs batch)
          gs).store.salesDataMap.map (fun d => d.id))
        = gs.store.salesDataMap.map (fun d => d.id) := by
  induction L with
  | nil => intro gs; rfl
  | cons batch L ih =>
    intro gs
    rw [List.foldl_cons, ih, processGeoBatch_ids]

theorem enrichAll_ids (g : String → Option Coord) (st : Store) (cache : GeoCache) :
    (enrichAll g st cache).store.salesDataMap.map (fun d => d.id)
      = st.salesDataMap.map (fun d => d.id) := by
  rw [enrichAll]
  exact foldl_batches_ids g _ _

/-- Iterated enrichment runs, threading the store and the process-lifetime
geocoding cache. -/
def iterEnrich (g : String → Option Coord) : Nat → Store × GeoCache → Store × GeoCache
  | 0, sc => sc
  | n + 1, sc =>
    let res := enrichAll g sc.1 sc.2
    iterEnrich g n (res.store, res.cache)

/-- C7: enrichment is idempotent on already-enriched records: a record whose
coordinates are not the sentinel `(0, 0)` is excluded from the enrichment scan
and survives any number of enrichment runs completely untouched (the record —
coordinates included — is still in the store verbatim). -/
theorem enrichAll_idempotent (g : String → Option Coord) (st : Store)
    (cache : GeoCache) (r : SalesData) (n : Nat)
    (hnodup : (st.salesDataMap.map (fun d => d.id)).Nodup)
    (hr : r ∈ st.salesDataMap)
    (hns : ¬(r.latitude = 0 ∧ r.longitude = 0)) :
    r ∉ (getAllSalesData st).filter needsGeocode ∧
    r ∈ (iterEnrich g n (st, cache)).1.salesDataMap := by
  have hng : ¬needsGeocode r = true := by
    intro hng
    simp only [needsGeocode, Bool.and_eq_true, decide_eq_true_eq] at hng
    exact hns ⟨hng.1.1.1, hng.1.1.2⟩
  have hscan : r ∉ (getAllSalesData st).filter needsGeocode := by
    intro hmem
    exact hng (List.mem_filter.mp hmem).2
  refine ⟨hscan, ?_⟩
  induction n generalizing st cache with
  | zero => exact hr
  | succ n ih =>
    have hids : ∀ batch ∈ chunks 10 ((getAllSalesData st).filter needsGeocode),
        ∀ item ∈ batch, r.id ≠ item.id := by
      intro batch hbatch item hitem heq
      have hflat : item ∈ (getAllSalesData st).filter needsGeocode := by
        have h2 : item ∈ (chunks 10 ((getAllSalesData st).filter needsGeocode)).flatten :=
          List.mem_flatten.mpr ⟨batch, hbatch, hitem⟩
        rwa [chunks_flatten 10 (by omega)] at h2
      obtain ⟨hitem_st, hitem_ng⟩ := List.mem_filter.mp hflat
      have : r = item := List.inj_on_of_nodup_map hnodup hr hitem_st heq
      rw [this] at hng
      exact hng hitem_ng
    have hmem1 : r ∈ (enrichAll g st cache).store.salesDataMap := by
      rw [enrichAll]
      exact foldl_batches_frame g _ r _ hr hids
    have hnodup1 : ((enrichAll g st cache).store.salesDataMap.map
        (fun d => d.id)).Nodup := by
      rw [enrichAll_ids]
      exact hnodup
    have hscan1 : r ∉ (getAllSalesData (enrichAll g st cache).store).filter needsGeocode := by
      intro hmem
      exact hng (List.mem_filter.mp hmem).2
    exact ih (enrichAll g st cache).store (enrichAll g st cache).cache
      hnodup1 hmem1 hscan1

/-- The cache entries are exactly the geocoder's answers. -/
def cacheInv (g : String → Option Coord) (cache : GeoCache) : Prop :=
  ∀ kv ∈ cache, g kv.1 = some kv.2

theorem cacheGet_isSome_iff (c : GeoCache) (k : String) :
    (cacheGet c k).isSome ↔ k ∈ c.map Prod.fst := by
  rw [cacheGet]
  rcases hf : List.find? (fun p => p.1 = k) c with _ | p
  · simp only [hf, Option.map_none', Option.isSome_none, Bool.false_eq_true, false_iff]
    intro h
    rw [List.mem_map] at h
    obtain ⟨q, hq, hqk⟩ := h
    have h2 := List.find?_eq_none.mp hf q hq
    simp [hqk] at h2
  · simp only [hf, Option.map_some', Option.isSome_some, true_iff]
    have hp1 : p.1 = k := by simpa using List.find?_some hf
    exact List.mem_map.mpr ⟨p, List.mem_of_find?_eq_some hf, hp1⟩

theorem cacheGet_mem (c : GeoCache) (k : String) (v : Coord)
    (h : cacheGet c k = some v) : (k, v) ∈ c := by
  rw [cacheGet] at h
  rcases hf : List.find? (fun p => p.1 = k) c with _ | p
  · rw [hf] at h
    exact absurd h (by simp)
  · rw [hf] at h
    simp only [Option.map_some'] at h
    have hp1 : p.1 = k := by simpa using List.find?_some hf
    have hpm := List.mem_of_find?_eq_some hf
    have : p = (k, v) := by
      rcases p with ⟨a, b⟩
      have hbv : b = v := by simpa using h
      simp only at hp1
      rw [hp1, hbv]
    exact this ▸ hpm

theorem cacheSet_mem (c : GeoCache) (k : String) (v : Coord) :
    ∀ q ∈ cacheSet c k v, q ∈ c ∨ q = (k, v) := by
  intro q hq
  rw [cacheSet] at hq
  split at hq
  · rw [List.mem_map] at hq
    obtain ⟨p, hp, hpq⟩ := hq
    by_cases hpk : p.1 = k
    · rw [if_pos hpk] at hpq
      exact Or.inr hpq.symm
    · rw [if_neg hpk] at hpq
      exact Or.inl (hpq ▸ hp)
  · rcases List.mem_append.mp hq with hq2 | hq2
    · exact Or.inl hq2
    · rw [List.mem_singleton] at hq2
      exact Or.inr hq2

theorem cacheInv_cacheSet (g : String → Option Coord) (c : GeoCache) (k : String)
    (v : Coord) (hinv : cacheInv g c) (hk : g k = some v) :
    cacheInv g (cacheSet c k v) := by
  intro q hq
  rcases cacheSet_mem c k v q hq with hq2 | rfl
  · exact hinv q hq2
  · exact hk

theorem cacheSet_keys_super (c : GeoCache) (k k0 : String) (v : Coord)
    (h : k0 ∈ c.map Prod.fst) : k0 ∈ (cacheSet c k v).map Prod.fst := by
  rw [cacheSet]
  split
  · rw [List.map_map]
    rw [List.mem_map] at h ⊢
    obtain ⟨p, hp, hpk⟩ := h
    refine ⟨p, hp, ?_⟩
    simp only [Function.comp_apply]
    by_cases hpk2 : p.1 = k
    · rw [if_pos hpk2]
      simp only
      rw [← hpk2]
      exact hpk.symm ▸ rfl
    · rw [if_neg hpk2]
      exact hpk
  · rw [List.map_append]
    exact List.mem_append.mpr (Or.inl h)

theorem cacheSet_keys_self (c : GeoCache) (k : String) (v : Coord) :
    k ∈ (cacheSet c k v).map Prod.fst := by
  rw [cacheSet]
  split
  · rename_i hany
    rw [List.any_eq_true] at hany
    obtain ⟨p, hp, hpk⟩ := hany
    rw [List.map_map, List.mem_map]
    refine ⟨p, hp, ?_⟩
    simp only [Function.comp_apply]
    rw [if_pos (by simpa using hpk)]
  · rw [List.map_append]
    exact List.mem_append.mpr (Or.inr (by simp))

theorem cacheSet_keys_sub (c : GeoCache) (k k0 : String) (v : Coord)
    (h : k0 ∈ (cacheSet c k v).map Prod.fst) :
    k0 ∈ c.map Prod.fst ∨ k0 = k := by
  rw [List.mem_map] at h
  obtain ⟨q, hq, hqk⟩ := h
  rcases cacheSet_mem c k v q hq with hq2 | rfl
  · exact Or.inl (List.mem_map.mpr ⟨q, hq2, hqk⟩)
  · exact Or.inr hqk.symm

theorem processItem_lookups (g : String → Option Coord) (cache0 : GeoCache)
    (gs : GeoState) (item : SalesData) :
    (processItem g cache0 gs item).lookups
      = gs.lookups ++ (if (cacheGet cache0 (geoKey item)).isSome then []
                       else [geoKey item]) := by
  rw [processItem]
  rcases hc : cacheGet cache0 (geoKey item) with _ | c
  · rcases g (geoKey item) with _ | c2
    · simp
    · simp
  · simp

theorem processItem_cache_keys (g : String → Option Coord) (cache0 : GeoCache)
    (gs : GeoState) (item : SalesData) (k0 : String)
    (h : k0 ∈ gs.cache.map Prod.fst) :
    k0 ∈ (processItem g cache0 gs item).cache.map Prod.fst := by
  rw [processItem]
  rcases cacheGet cache0 (geoKey item) with _ | c
  · rcases g (geoKey item) with _ | c2
    · exact h
    · exact cacheSet_keys_super gs.cache (geoKey item) k0 c2 h
  · exact h

theorem processItem_cache_keys_sub (g : String → Option Coord) (cache0 : GeoCache)
    (gs : GeoState) (item : SalesData) (k0 : String)
    (h : k0 ∈ (processItem g cache0 gs item).cache.map Prod.fst) :
    k0 ∈ gs.cache.map Prod.fst ∨ k0 = geoKey item := by
  rw [processItem] at h
  rcases hc : cacheGet cache0 (geoKey item) with _ | c
  · simp only [hc] at h
    rcases hg2 : g (geoKey item) with _ | c2
    · simp only [hg2] at h
      exact Or.inl h
    · simp only [hg2] at h
      exact cacheSet_keys_sub gs.cache (geoKey item) k0 c2 h
  · simp only [hc] at h
    exact Or.inl h

theorem processGeoBatch_lookups (g : String → Option Coord) (batch : List SalesData) :
    ∀ (cache0 : GeoCache) (gs : GeoState),
      (processGeoBatch g cache0 gs batch).lookups
        = gs.lookups ++
          (batch.filter (fun it => !(cacheGet cache0 (geoKey it)).isSome)).map geoKey := by
  induction batch with
  | nil => intro cache0 gs; simp [processGeoBatch]
  | cons item rest ih =>
    intro cache0 gs
    rw [processGeoBatch, List.foldl_cons]
    rw [show List.foldl (processItem g cache0) (processItem g cache0 gs item) rest
        = processGeoBatch g cache0 (processItem g cache0 gs item) rest from rfl]
    rw [ih, processItem_lookups]
    rcases hc : cacheGet cache0 (geoKey item) with _ | c0
    · simp [List.filter_cons, hc, List.append_assoc]
    · simp [List.filter_cons, hc]

theorem processGeoBatch_cache_keys (g : String → Option Coord) (batch : List SalesData) :
    ∀ (cache0 : GeoCache) (gs : GeoState) (k0 : String),
      k0 ∈ gs.cache.map Prod.fst →
      k0 ∈ (processGeoBatch g cache0 gs batch).cache.map Prod.fst := by
  induction batch with
  | nil => intro cache0 gs k0 h; exact h
  | cons item rest ih =>
    intro cache0 gs k0 h
    rw [processGeoBatch, List.foldl_cons]
    exact ih cache0 _ k0 (processItem_cache_keys g cache0 gs item k0 h)

theorem processGeoBatch_cache_keys_sub (g : String → Option Coord)
    (batch : List SalesData) :
    ∀ (cache0 : GeoCache) (gs : GeoState) (k0 : String),
      k0 ∈ (processGeoBatch g cache0 gs batch).cache.map Prod.fst →
      k0 ∈ gs.cache.map Prod.fst ∨ ∃ item ∈ batch, geoKey item = k0 := by
  induction batch with
  | nil => intro cache0 gs k0 h; exact Or.inl h
  | cons item rest ih =>
    intro cache0 gs k0 h
    rw [processGeoBatch, List.foldl_cons] at h
    rcases ih cache0 _ k0 h with h2 | ⟨it, hit, hitk⟩
    · rcases processItem_cache_keys_sub g cache0 gs item k0 h2 with h3 | rfl
      · exact Or.inl h3
      · exact Or.inr ⟨item, List.mem_cons_self _ _, rfl⟩
    · exact Or.inr ⟨it, List.mem_cons_of_mem _ hit, hitk⟩

theorem processGeoBatch_caches_key (g : String → Option Coord) (p : String) (c : Coord)
    (hg : g p = some c) (batch : List SalesData) :
    ∀ (cache0 : GeoCache) (gs : GeoState),
      (∀ k0 ∈ cache0.map Prod.fst, k0 ∈ gs.cache.map Prod.fst) →
      (∃ item ∈ batch, geoKey item = p) ∨ p ∈ cache0.map Prod.fst →
      p ∈ (processGeoBatch g cache0 gs batch).cache.map Prod.fst := by
  induction batch with
  | nil =>
    intro cache0 gs hsub h
    rcases h with ⟨item, hit, _⟩ | h2
    · exact absurd hit (List.not_mem_nil item)
    · exact hsub p h2
  | cons item rest ih =>
    intro cache0 gs hsub h
    rcases h with ⟨it, hit, hitk⟩ | h2
    · rcases List.mem_cons.mp hit with rfl | hit2
      · by_cases hck : (cacheGet cache0 (geoKey it)).isSome
        · have hp0 : p ∈ cache0.map Prod.fst := by
            rw [← hitk]
            exact (cacheGet_isSome_iff cache0 (geoKey it)).mp hck
          rw [processGeoBatch, List.foldl_cons]
          exact processGeoBatch_cache_keys g rest cache0 _ p
            (processItem_cache_keys g cache0 gs it p (hsub p hp0))
        · rw [processGeoBatch, List.foldl_cons]
          have hpk : p ∈ (processItem g cache0 gs it).cache.map Prod.fst := by
            rw [processItem]
            rcases hc : cacheGet cache0 (geoKey it) with _ | c0
            · rw [hitk, hg]
              exact cacheSet_keys_self gs.cache p c
            · exact absurd (by rw [hc]; rfl) hck
          exact processGeoBatch_cache_keys g rest cache0 _ p hpk
      · rw [processGeoBatch, List.foldl_cons]
        exact ih cache0 _ (fun k0 hk0 => processItem_cache_keys g cache0 gs item k0 (hsub k0 hk0))
          (Or.inl ⟨it, hit2, hitk⟩)
    · rw [processGeoBatch, List.foldl_cons]
      exact ih cache0 _ (fun k0 hk0 => processItem_cache_keys g cache0 gs item k0 (hsub k0 hk0))
        (Or.inr h2)

theorem count_filtered_le (batch : List SalesData) (cache0 : GeoCache) (p : String) :
    ((batch.filter (fun it => !(cacheGet cache0 (geoKey it)).isSome)).map geoKey).count p
      ≤ batch.length := by
  calc ((batch.filter (fun it => !(cacheGet cache0 (geoKey it)).isSome)).map geoKey).count p
      ≤ ((batch.filter (fun it => !(cacheGet cache0 (geoKey it)).isSome)).map geoKey).length :=
        List.count_le_length p _
    _ = (batch.filter (fun it => !(cacheGet cache0 (geoKey it)).isSome)).length :=
        List.length_map _ _
    _ ≤ batch.length := List.length_filter_le _ _

theorem count_filtered_zero_of_cached (batch : List SalesData) (cache0 : GeoCache)
    (p : String) (hp : p ∈ cache0.map Prod.fst) :
    ((batch.filter (fun it => !(cacheGet cache0 (geoKey it)).isSome)).map geoKey).count p
      = 0 := by
  rw [List.count_eq_zero]
  intro hmem
  rw [List.mem_map] at hmem
  obtain ⟨it, hit, hitk⟩ := hmem
  have hns := (List.mem_filter.mp hit).2
  rw [hitk] at hns
  rw [Bool.not_eq_eq_eq_not, Bool.not_true] at hns
  exact absurd ((cacheGet_isSome_iff cache0 p).mpr hp) (by simp [hns])

theorem count_filtered_zero_of_absent (batch : List SalesData) (cache0 : GeoCache)
    (p : String) (hp : ¬∃ item ∈ batch, geoKey item = p) :
    ((batch.filter (fun it => !(cacheGet cache0 (geoKey it)).isSome)).map geoKey).count p
      = 0 := by
  rw [List.count_eq_zero]
  intro hmem
  rw [List.mem_map] at hmem
  obtain ⟨it, hit, hitk⟩ := hmem
  exact hp ⟨it, (List.mem_filter.mp hit).1, hitk⟩

theorem foldl_batches_count (g : String → Option Coord) (p : String) (c : Coord)
    (hg : g p = some c) (L : List (List SalesData)) :
    ∀ gs : GeoState, (∀ b ∈ L, b.length ≤ 10) →
      ((p ∉ gs.cache.map Prod.fst ∧ gs.lookups.count p = 0) ∨
       (p ∈ gs.cache.map Prod.fst ∧ gs.lookups.count p ≤ 10)) →
      ((L.foldl (fun gs batch => processGeoBatch g gs.cache gs batch)
          gs).lookups.count p) ≤ 10 := by
  induction L with
  | nil =>
    intro gs _ h
    rw [List.foldl_nil]
    rcases h with ⟨_, h0⟩ | ⟨_, h10⟩
    · rw [h0]
      omega
    · exact h10
  | cons batch L ih =>
    intro gs hlen hINV
    rw [List.foldl_cons]
    apply ih _ (fun b hb => hlen b (List.mem_cons_of_mem _ hb))
    have hcount : (processGeoBatch g gs.cache gs batch).lookups.count p
        = gs.lookups.count p +
          ((batch.filter (fun it => !(cacheGet gs.cache (geoKey it)).isSome)).map
            geoKey).count p := by
      rw [processGeoBatch_lookups, List.count_append]
    rcases hINV with ⟨hout, hzero⟩ | ⟨hin, hle⟩
    · by_cases hp : ∃ item ∈ batch, geoKey item = p
      · right
        refine ⟨processGeoBatch_caches_key g p c hg batch gs.cache gs
          (fun k0 hk0 => hk0) (Or.inl hp), ?_⟩
        rw [hcount, hzero]
        have := count_filtered_le batch gs.cache p
        have hblen := hlen batch (List.mem_cons_self _ _)
        omega
      · left
        refine ⟨?_, ?_⟩
        · intro hpk
          rcases processGeoBatch_cache_keys_sub g batch gs.cache gs p hpk with h2 | h2
          · exact hout h2
          · exact hp h2
        · rw [hcount, hzero, count_filtered_zero_of_absent batch gs.cache p hp]
    · right
      refine ⟨processGeoBatch_cache_keys g batch gs.cache gs p hin, ?_⟩
      rw [hcount, count_filtered_zero_of_cached batch gs.cache p hin]
      omega

/-- A final-store record is either an untouched original or an original whose
coordinates were replaced by the geocoder's (deterministic) answer for its own
(city, state) pair. -/
def enrichedFrom (g : String → Option Coord) (st : Store) (x : SalesData) : Prop :=
  x ∈ st.salesDataMap ∨
    ∃ r ∈ st.salesDataMap, x.id = r.id ∧ x.city = r.city ∧ x.state = r.state ∧
      g (geoKey r) = some (x.latitude, x.longitude)

theorem update_preserves_enriched (g : String → Option Coord) (st st' : Store)
    (item : SalesData) (c : Coord)
    (hitem : item ∈ st.salesDataMap)
    (hkey : g (geoKey item) = some c)
    (hnodup : (st.salesDataMap.map (fun d => d.id)).Nodup)
    (hINV : ∀ x ∈ st'.salesDataMap, enrichedFrom g st x) :
    ∀ x ∈ (updateSalesDataCoordinates st' item.id c.1 c.2).salesDataMap,
      enrichedFrom g st x := by
  intro x hx
  rcases update_mem st' item.id c.1 c.2 x hx with hx2 | ⟨d, hfd, rfl⟩
  · exact hINV x hx2
  · have hd : d ∈ st'.salesDataMap := List.mem_of_find?_eq_some hfd
    have hdi : d.id = item.id := by simpa using List.find?_some hfd
    rcases hINV d hd with hd2 | ⟨r, hrmem, hrid, hrcity, hrstate, _⟩
    · have hde : d = item := List.inj_on_of_nodup_map hnodup hd2 hitem hdi
      refine Or.inr ⟨item, hitem, ?_, ?_, ?_, ?_⟩
      · show d.id = item.id
        exact hdi
      · show d.city = item.city
        rw [hde]
      · show d.state = item.state
        rw [hde]
      · show g (geoKey item) = some (c.1, c.2)
        rw [hkey]
    · have hre : r = item :=
        List.inj_on_of_nodup_map hnodup hrmem hitem (by rw [← hrid, hdi])
      refine Or.inr ⟨r, hrmem, ?_, ?_, ?_, ?_⟩
      · show d.id = r.id
        exact hrid
      · show d.city = r.city
        exact hrcity
      · show d.state = r.state
        exact hrstate
      · show g (geoKey r) = some (c.1, c.2)
        rw [hre, hkey]

theorem processItem_enriched (g : String → Option Coord) (st : Store)
    (hnodup : (st.salesDataMap.map (fun d => d.id)).Nodup)
    (cache0 : GeoCache) (hinv0 : cacheInv g cache0) (gs : GeoState)
    (item : SalesData) (hitem : item ∈ st.salesDataMap)
    (hcache : cacheInv g gs.cache)
    (hINV : ∀ x ∈ gs.store.salesDataMap, enrichedFrom g st x) :
    cacheInv g (processItem g cache0 gs item).cache ∧
    (∀ x ∈ (processItem g cache0 gs item).store.salesDataMap, enrichedFrom g st x) := by
  rw [processItem]
  rcases hc : cacheGet cache0 (geoKey item) with _ | c0
  · rcases hg2 : g (geoKey item) with _ | c2
    · exact ⟨hcache, hINV⟩
    · exact ⟨cacheInv_cacheSet g gs.cache (geoKey item) c2 hcache hg2,
        update_preserves_enriched g st gs.store item c2 hitem hg2 hnodup hINV⟩
  · have hkey : g (geoKey item) = some c0 := by
      have hmem := cacheGet_mem cache0 (geoKey item) c0 hc
      simpa using hinv0 (geoKey item, c0) hmem
    exact ⟨hcache,
      update_preserves_enriched g st gs.store item c0 hitem hkey hnodup hINV⟩

theorem processGeoBatch_enriched (g : String → Option Coord) (st : Store)
    (hnodup : (st.salesDataMap.map (fun d => d.id)).Nodup)
    (batch : List SalesData) :
    ∀ (cache0 : GeoCache) (gs : GeoState),
      cacheInv g cache0 →
      (∀ item ∈ batch, item ∈ st.salesDataMap) →
      cacheInv g gs.cache →
      (∀ x ∈ gs.store.salesDataMap, enrichedFrom g st x) →
      cacheInv g (processGeoBatch g cache0 gs batch).cache ∧
      (∀ x ∈ (processGeoBatch g cache0 gs batch).store.salesDataMap,
        enrichedFrom g st x) := by
  induction batch with
  | nil => intro cache0 gs _ _ hcache hINV; exact ⟨hcache, hINV⟩
  | cons item rest ih =>
    intro cache0 gs hinv0 hmem hcache hINV
    rw [processGeoBatch, List.foldl_cons]
    obtain ⟨hcache1, hINV1⟩ := processItem_enriched g st hnodup cache0 hinv0 gs item
      (hmem item (List.mem_cons_self _ _)) hcache hINV
    exact ih cache0 (processItem g cache0 gs item) hinv0
      (fun it hit => hmem it (List.mem_cons_of_mem _ hit)) hcache1 hINV1

theorem foldl_batches_enriched (g : String → Option Coord) (st : Store)
    (hnodup : (st.salesDataMap.map (fun d => d.id)).Nodup)
    (L : List (List SalesData)) :
    ∀ gs : GeoState,
      (∀ b ∈ L, ∀ item ∈ b, item ∈ st.salesDataMap) →
      cacheInv g gs.cache →
      (∀ x ∈ gs.store.salesDataMap, enrichedFrom g st x) →
      cacheInv g (L.foldl (fun gs batch => processGeoBatch g gs.cache gs batch) gs).cache ∧
      (∀ x ∈ (L.foldl (fun gs batch => processGeoBatch g gs.cache gs batch)
          gs).store.salesDataMap, enrichedFrom g st x) := by
  induction L with
  | nil => intro gs _ hcache hINV; exact ⟨hcache, hINV⟩
  | cons batch L ih =>
    intro gs hL hcache hINV
    rw [List.foldl_cons]
    obtain ⟨hcache1, hINV1⟩ := processGeoBatch_enriched g st hnodup batch gs.cache gs
      hcache (fun it hit => hL batch (List.mem_cons_self _ _) it hit) hcache hINV
    exact ih _ (fun b hb it hit => hL b (List.mem_cons_of_mem _ hb) it hit) hcache1 hINV1

/-- C2 (amended): with a deterministic geocoder `g` resolving the pair key `p`
and a cache that holds only `g`'s answers, one enrichment run issues at most
ten external lookups for `p` — the sentinel records of the pair that land in
the single batch of ten processed before `p` enters the cache each issue their
own lookup, every later batch is served from the cache; and every record whose
coordinates the run changed got them from `g` on its own pair, so any two
changed records sharing a pair end with identical coordinates. -/
theorem enrichAll_dedup_spec (g : String → Option Coord) (st : Store)
    (cache : GeoCache) (p : String) (c : Coord)
    (hg : g p = some c) (hinv : cacheInv g cache)
    (hnodup : (st.salesDataMap.map (fun d => d.id)).Nodup) :
    (enrichAll g st cache).lookups.count p ≤ 10 ∧
    (∀ x ∈ (enrichAll g st cache).store.salesDataMap, enrichedFrom g st x) ∧
    (∀ x1 ∈ (enrichAll g st cache).store.salesDataMap,
      ∀ x2 ∈ (enrichAll g st cache).store.salesDataMap,
        x1 ∉ st.salesDataMap → x2 ∉ st.salesDataMap → geoKey x1 = geoKey x2 →
        x1.latitude = x2.latitude ∧ x1.longitude = x2.longitude) := by
  have hmemscan : ∀ b ∈ chunks 10 ((getAllSalesData st).filter needsGeocode),
      ∀ item ∈ b, item ∈ st.salesDataMap := by
    intro b hb item hit
    have h2 : item ∈ (chunks 10 ((getAllSalesData st).filter needsGeocode)).flatten :=
      List.mem_flatten.mpr ⟨b, hb, hit⟩
    rw [chunks_flatten 10 (by omega)] at h2
    exact (List.mem_filter.mp h2).1
  have henr : ∀ x ∈ (enrichAll g st cache).store.salesDataMap, enrichedFrom g st x := by
    rw [enrichAll]
    exact (foldl_batches_enriched g st hnodup _ _ hmemscan hinv
      (fun x hx => Or.inl hx)).2
  refine ⟨?_, henr, ?_⟩
  · rw [enrichAll]
    apply foldl_batches_count g p c hg _ _
      (chunks_length_le 10 (by omega) _)
    by_cases hp : p ∈ cache.map Prod.fst
    · exact Or.inr ⟨hp, by simp⟩
    · exact Or.inl ⟨hp, by simp⟩
  · intro x1 hx1 x2 hx2 hn1 hn2 hkeq
    rcases henr x1 hx1 with h1 | ⟨r1, _, _, hc1, hs1, hg1⟩
    · exact absurd h1 hn1
    rcases henr x2 hx2 with h2 | ⟨r2, _, _, hc2, hs2, hg2⟩
    · exact absurd h2 hn2
    have hk1 : geoKey r1 = geoKey x1 := by
      rw [geoKey, geoKey, hc1, hs1]
    have hk2 : geoKey r2 = geoKey x2 := by
      rw [geoKey, geoKey, hc2, hs2]
    rw [hk1] at hg1
    rw [hk2, ← hkeq] at hg2
    rw [hg1] at hg2
    have := Option.some_inj.mp hg2
    exact ⟨congrArg Prod.fst this, congrArg Prod.snd this⟩

/-- A sentinel-coordinate record in Pune, MH. -/
def sentinelRecA : SalesData :=
  { id := 1, state := "MH", city := "Pune", maker := "Acme", rto := "MH01",
    district := "Pune", latitude := 0, longitude := 0, sales2022 := 0,
    sales2023 := 5, sales2024 := 0, sales2025 := 0, total := 5, monthVals := [] }

/-- A second sentinel record sharing the same (city, state) pair. -/
def sentinelRecB : SalesData :=
  { id := 2, state := "MH", city := "Pune", maker := "Zenith", rto := "MH02",
    district := "Pune", latitude := 0, longitude := 0, sales2022 := 3,
    sales2023 := 0, sales2024 := 0, sales2025 := 0, total := 3, monthVals := [] }

/-- A store with two sentinel records of the same pair. -/
def twoSentinelStore : Store :=
  { salesDataMap := [sentinelRecA, sentinelRecB], currentId := 3 }

/-- A deterministic geocoder that resolves every address. -/
def gPune : String → Option Coord := fun _ => some (18, 73)

/-- C2 counterexample: two sentinel records sharing (Pune, MH) land in the same
batch of ten; each checks the cache before either fetch resolves, so the run
issues TWO external lookups for the pair, not at most one. -/
theorem enrichAll_two_lookups :
    (enrichAll gPune twoSentinelStore []).lookups = ["Pune, MH", "Pune, MH"] ∧
    (enrichAll gPune twoSentinelStore []).lookups.count "Pune, MH" = 2 := by
  constructor
  · rfl
  · rfl

/-- Witness for C2 (amended) at the two-record Pune store with an empty cache. -/
theorem enrichAll_dedup_spec_witness :
    (gPune "Pune, MH" = some (18, 73) ∧ cacheInv gPune [] ∧
      (twoSentinelStore.salesDataMap.map (fun d => d.id)).Nodup) ∧
    ((enrichAll gPune twoSentinelStore []).lookups.count "Pune, MH" ≤ 10 ∧
     (∀ x ∈ (enrichAll gPune twoSentinelStore []).store.salesDataMap,
        enrichedFrom gPune twoSentinelStore x) ∧
     (∀ x1 ∈ (enrichAll gPune twoSentinelStore []).store.salesDataMap,
       ∀ x2 ∈ (enrichAll gPune twoSentinelStore []).store.salesDataMap,
         x1 ∉ twoSentinelStore.salesDataMap → x2 ∉ twoSentinelStore.salesDataMap →
         geoKey x1 = geoKey x2 →
         x1.latitude = x2.latitude ∧ x1.longitude = x2.longitude)) :=
  ⟨⟨rfl, fun kv hkv => absurd hkv (List.not_mem_nil kv), by decide⟩,
   enrichAll_dedup_spec gPune twoSentinelStore [] "Pune, MH" (18, 73) rfl
     (fun kv hkv => absurd hkv (List.not_mem_nil kv)) (by decide)⟩

/-- An already-enriched record (non-sentinel coordinates). -/
def enrichedRec : SalesData :=
  { id := 1, state := "MH", city := "Pune", maker := "Acme", rto := "MH01",
    district := "Pune", latitude := 18, longitude := 73, sales2022 := 0,
    sales2023 := 5, sales2024 := 0, sales2025 := 0, total := 5, monthVals := [] }

/-- A store holding one enriched and one sentinel record. -/
def mixedGeoStore : Store :=
  { salesDataMap := [enrichedRec, sentinelRecB], currentId := 3 }

/-- Witness for C7: after two enrichment runs over a store holding an enriched
record and a sentinel record, the enriched record is still present verbatim and
was never in any scan. -/
theorem enrichAll_idempotent_witness :
    ((mixedGeoStore.salesDataMap.map (fun d => d.id)).Nodup ∧
      enrichedRec ∈ mixedGeoStore.salesDataMap ∧
      ¬(enrichedRec.latitude = 0 ∧ enrichedRec.longitude = 0)) ∧
    (enrichedRec ∉ (getAllSalesData mixedGeoStore).filter needsGeocode ∧
      enrichedRec ∈ (iterEnrich gPune 2 (mixedGeoStore, [])).1.salesDataMap) :=
  ⟨⟨by decide, by decide, by decide⟩,
   enrichAll_idempotent gPune mixedGeoStore [] enrichedRec 2 (by decide) (by decide)
     (by decide)⟩
